import Mathlib

/-!
Verification of the matchmaking / relay core of the signalling server.

The development is a shallow embedding of the server code (`src/index.js`
and the extended variant with rate limiting and an optional Redis backend):
client identifiers and opaque payloads are modelled as natural numbers, the
process-local registry (a JS `Map`, which iterates in insertion order) as an
insertion-ordered list of connection records, the local waiting queue as a
list of identifiers, and every message handed to a websocket as an entry of
an `outbox` list.  `crypto.randomUUID()` is modelled by a monotone counter
`nextId`: freshness of generated identifiers is exactly what the UUID
generator provides.
-/

/-- Per-connection record, mirroring
`{ id, ws, userId, partnerId, roomId, isAvailable, rate: \x7b ts, count \x7d, lastSeen }`. -/
structure Conn where
  id : Nat
  userId : Option Nat
  partnerId : Option Nat
  roomId : Option Nat
  isAvailable : Bool
  rateTs : Nat
  rateCount : Nat
  lastSeen : Nat
  deriving DecidableEq

/-- Error codes surfaced to clients. -/
inductive ErrCode where
  | alreadyPaired
  | notPaired
  | invalidFormat
  | unknownType
  | rateLimited
  deriving DecidableEq

/-- Server-to-client wire messages. -/
inductive OutMsg where
  | ready (clientId : Nat)
  | matched (roomId : Nat) (partnerId : Nat)
  | partnerLeft
  | errMsg (code : ErrCode)
  | pong
  | offerMsg (src : Nat) (sdp : Nat)
  | answerMsg (src : Nat) (sdp : Nat)
  | iceMsg (src : Nat) (candidate : Nat)
  deriving DecidableEq

/-- Client-to-server wire messages (`message.type` dispatch). -/
inductive ClientMsg where
  | auth (userId : Option Nat)
  | available
  | offer (sdp : Nat)
  | answer (sdp : Nat)
  | ice (candidate : Nat)
  | next
  | leave
  | ping
  | other
  deriving DecidableEq

/-- Whole-process state: the `clients` registry (insertion ordered, like a JS
`Map`), the local `waitingQueue`, all messages handed to sockets so far, and
the fresh-identifier counter. -/
structure ServerState where
  clients : List Conn
  waitingQueue : List Nat
  outbox : List (Nat × OutMsg)
  nextId : Nat
  deriving DecidableEq

/-- `clients.get(i)`: first (unique) record with the given id. -/
def lookupClient (cs : List Conn) (i : Nat) : Option Conn :=
  cs.find? (fun c => c.id == i)

/-- In-place mutation of the record with id `i` (a JS object field write). -/
def updateClient (cs : List Conn) (i : Nat) (f : Conn → Conn) : List Conn :=
  cs.map (fun c => if c.id = i then f c else c)

/-- `const index = waitingQueue.indexOf(id); if (index > -1) waitingQueue.splice(index, 1)`:
remove the first occurrence of `i`, a no-op when absent. -/
def removeFromQueue : List Nat → Nat → List Nat
  | [], _ => []
  | x :: xs, i => if x = i then xs else x :: removeFromQueue xs i

/-- `sendToClient(client, message)`: hand a message to the transport. -/
def sendToClient (s : ServerState) (dest : Nat) (m : OutMsg) : ServerState :=
  { s with outbox := s.outbox ++ [(dest, m)] }

/-- The record created at `wss.on('connection')` time. -/
def freshConn (cid : Nat) : Conn :=
  { id := cid, userId := none, partnerId := none, roomId := none,
    isAvailable := false, rateTs := 0, rateCount := 0, lastSeen := 0 }

/-- Connection setup: register a fresh record and send `ready`. -/
def connectClient (s : ServerState) : ServerState :=
  let cid := s.nextId
  { s with
    clients := s.clients ++ [freshConn cid]
    outbox := s.outbox ++ [(cid, OutMsg.ready cid)]
    nextId := s.nextId + 1 }

/-- `findAvailablePartner(excludeId)`: first registry entry (in insertion
order) that is available, unpaired and not the caller. -/
def findAvailablePartner (cs : List Conn) (excludeId : Nat) : Option Conn :=
  cs.find? (fun c => c.id != excludeId && c.isAvailable && c.partnerId == none)

/-- `createRoom(client1, client2)`: fresh room id, symmetric partner fields,
both availability flags cleared, both ids removed from the local waiting
queue, both sides notified. -/
def createRoom (s : ServerState) (id1 id2 : Nat) : ServerState :=
  let roomId := s.nextId
  let cs1 := updateClient s.clients id1
    (fun c => { c with partnerId := some id2, roomId := some roomId, isAvailable := false })
  let cs2 := updateClient cs1 id2
    (fun c => { c with partnerId := some id1, roomId := some roomId, isAvailable := false })
  let q1 := removeFromQueue s.waitingQueue id1
  let q2 := removeFromQueue q1 id2
  { s with
    clients := cs2,
    waitingQueue := q2,
    outbox := s.outbox ++ [(id1, OutMsg.matched roomId id2), (id2, OutMsg.matched roomId id1)],
    nextId := s.nextId + 1 }

/-- `handleAvailable(client)` in local-only mode (no Redis configured). -/
def handleAvailableL (s : ServerState) (cid : Nat) : ServerState :=
  match lookupClient s.clients cid with
  | none => s
  | some c =>
    if c.partnerId.isSome then
      sendToClient s cid (OutMsg.errMsg ErrCode.alreadyPaired)
    else
      let cs1 := updateClient s.clients cid (fun d => { d with isAvailable := true })
      let s1 := { s with clients := cs1 }
      match findAvailablePartner s1.clients cid with
      | some partner => createRoom s1 cid partner.id
      | none =>
        if cid ∈ s1.waitingQueue then s1
        else { s1 with waitingQueue := s1.waitingQueue ++ [cid] }

/-- `relayToPartner(partnerId, payload)` in local-only mode: deliver when the
partner is in the local registry, otherwise silently drop. -/
def relayToPartnerL (s : ServerState) (pid : Nat) (m : OutMsg) : ServerState :=
  match lookupClient s.clients pid with
  | some _ => sendToClient s pid m
  | none => s

/-- `handleOffer(client, message)`. -/
def handleOfferL (s : ServerState) (cid : Nat) (sdp : Nat) : ServerState :=
  match lookupClient s.clients cid with
  | none => s
  | some c =>
    match c.partnerId with
    | none => sendToClient s cid (OutMsg.errMsg ErrCode.notPaired)
    | some pid => relayToPartnerL s pid (OutMsg.offerMsg cid sdp)

/-- `handleAnswer(client, message)`. -/
def handleAnswerL (s : ServerState) (cid : Nat) (sdp : Nat) : ServerState :=
  match lookupClient s.clients cid with
  | none => s
  | some c =>
    match c.partnerId with
    | none => sendToClient s cid (OutMsg.errMsg ErrCode.notPaired)
    | some pid => relayToPartnerL s pid (OutMsg.answerMsg cid sdp)

/-- `handleIce(client, message)`. -/
def handleIceL (s : ServerState) (cid : Nat) (cand : Nat) : ServerState :=
  match lookupClient s.clients cid with
  | none => s
  | some c =>
    match c.partnerId with
    | none => sendToClient s cid (OutMsg.errMsg ErrCode.notPaired)
    | some pid => relayToPartnerL s pid (OutMsg.iceMsg cid cand)

/-- The shared partner-teardown block of `handleNext` / `handleLeave` /
`handleClientDisconnect`: reset the partner record if locally present and,
when `REQUEUE_ON_PARTNER_LEAVE` is set, mark it available again and append
it to the waiting queue (tail position, guarded by `includes`). -/
def resetPartnerAndMaybeRequeue (req : Bool) (s : ServerState) (pid : Nat) : ServerState :=
  match lookupClient s.clients pid with
  | none => s
  | some _ =>
    let cs1 := updateClient s.clients pid (fun c => { c with partnerId := none, roomId := none })
    let s1 := { s with clients := cs1 }
    if req then
      let cs2 := updateClient s1.clients pid (fun c => { c with isAvailable := true })
      let s2 := { s1 with clients := cs2 }
      if pid ∈ s2.waitingQueue then s2
      else { s2 with waitingQueue := s2.waitingQueue ++ [pid] }
    else s1

/-- The paired branch shared by `handleNext` and `handleLeave`: notify the
partner, tear its pairing down (with optional requeue), reset the caller and
drop the caller from the waiting queue. -/
def teardownPaired (req : Bool) (s : ServerState) (cid pid : Nat) : ServerState :=
  let s1 := relayToPartnerL s pid OutMsg.partnerLeft
  let s2 := resetPartnerAndMaybeRequeue req s1 pid
  let cs3 := updateClient s2.clients cid
    (fun c => { c with partnerId := none, roomId := none, isAvailable := false })
  let s3 := { s2 with clients := cs3 }
  { s3 with waitingQueue := removeFromQueue s3.waitingQueue cid }

/-- `handleNext(client)`: `NOT_PAIRED` error when unpaired, otherwise the
full teardown. -/
def handleNextL (req : Bool) (s : ServerState) (cid : Nat) : ServerState :=
  match lookupClient s.clients cid with
  | none => s
  | some c =>
    match c.partnerId with
    | none => sendToClient s cid (OutMsg.errMsg ErrCode.notPaired)
    | some pid => teardownPaired req s cid pid

/-- `handleLeave(client)`: partner teardown only when paired, then an
unconditional reset of the caller and its queue entry (no error when
unpaired). -/
def handleLeaveL (req : Bool) (s : ServerState) (cid : Nat) : ServerState :=
  match lookupClient s.clients cid with
  | none => s
  | some c =>
    match c.partnerId with
    | some pid => teardownPaired req s cid pid
    | none =>
      let cs2 := updateClient s.clients cid
        (fun d => { d with partnerId := none, roomId := none, isAvailable := false })
      let s2 := { s with clients := cs2 }
      { s2 with waitingQueue := removeFromQueue s2.waitingQueue cid }

/-- `handleClientDisconnect(client)`: partner teardown when paired, removal
from the waiting queue, removal from the registry. -/
def handleClientDisconnectL (req : Bool) (s : ServerState) (cid : Nat) : ServerState :=
  match lookupClient s.clients cid with
  | none => s
  | some c =>
    let s1 := match c.partnerId with
      | some pid => resetPartnerAndMaybeRequeue req (relayToPartnerL s pid OutMsg.partnerLeft) pid
      | none => s
    { s1 with
      clients := s1.clients.filter (fun d => d.id ≠ cid)
      waitingQueue := removeFromQueue s1.waitingQueue cid }

/-- `handleAuth(client, message)`: store the optional label, stamp `lastSeen`. -/
def handleAuthL (s : ServerState) (cid : Nat) (uid : Option Nat) (now : Nat) : ServerState :=
  let cs1 := updateClient s.clients cid (fun c => { c with userId := uid, lastSeen := now })
  { s with clients := cs1 }

/-- `handleMessage(client, message)`: the `message.type` dispatch. -/
def handleMessage (req : Bool) (s : ServerState) (cid : Nat) (now : Nat) :
    ClientMsg → ServerState
  | .auth uid => handleAuthL s cid uid now
  | .available => handleAvailableL s cid
  | .offer sdp => handleOfferL s cid sdp
  | .answer sdp => handleAnswerL s cid sdp
  | .ice cand => handleIceL s cid cand
  | .next => handleNextL req s cid
  | .leave => handleLeaveL req s cid
  | .ping => sendToClient s cid OutMsg.pong
  | .other => sendToClient s cid (OutMsg.errMsg ErrCode.unknownType)

/-- `rateLimitOK(client)`: fixed 1000-unit window; result is
(admitted, new window start, new count). -/
def rateLimitOK (now ts count maxPerSec : Nat) : Bool × Nat × Nat :=
  if ts + 1000 < now then (true, now, 1)
  else (decide (count + 1 ≤ maxPerSec), ts, count + 1)

/-- The `ws.on('message')` callback: rate-limit gate, then dispatch; a
rejected message is answered with `RATE_LIMIT` and never reaches
`handleMessage`. -/
def wsMessage (req : Bool) (maxPerSec : Nat) (s : ServerState) (cid now : Nat)
    (m : ClientMsg) : ServerState :=
  match lookupClient s.clients cid with
  | none => s
  | some c =>
    let r := rateLimitOK now c.rateTs c.rateCount maxPerSec
    let cs1 := updateClient s.clients cid
      (fun d => { d with rateTs := r.2.1, rateCount := r.2.2 })
    let s1 := { s with clients := cs1 }
    if r.1 then handleMessage req s1 cid now m
    else sendToClient s1 cid (OutMsg.errMsg ErrCode.rateLimited)

/-- Empty server state at process start. -/
def initState : ServerState :=
  { clients := [], waitingQueue := [], outbox := [], nextId := 0 }

/-- One externally triggered, run-to-completion event in local-only mode. -/
inductive LStep (req : Bool) (maxPerSec : Nat) : ServerState → ServerState → Prop
  | connect (s : ServerState) : LStep req maxPerSec s (connectClient s)
  | message (s : ServerState) (cid now : Nat) (m : ClientMsg) :
      LStep req maxPerSec s (wsMessage req maxPerSec s cid now m)
  | disconnect (s : ServerState) (cid : Nat) :
      LStep req maxPerSec s (handleClientDisconnectL req s cid)

/-- States reachable from process start in local-only mode: exactly the
quiescent points (every handler has run to completion). -/
inductive ReachableL (req : Bool) (maxPerSec : Nat) : ServerState → Prop
  | init : ReachableL req maxPerSec initState
  | step {s t : ServerState} : ReachableL req maxPerSec s →
      LStep req maxPerSec s t → ReachableL req maxPerSec t

/-- Partner links are symmetric: a partner pointer names a different,
registered connection that points back. -/
def SymmetricPairs (cs : List Conn) : Prop :=
  ∀ c ∈ cs, ∀ p, c.partnerId = some p →
    p ≠ c.id ∧ ∃ d ∈ cs, d.id = p ∧ d.partnerId = some c.id

/-- No connection is simultaneously flagged available and paired. -/
def AvailMutex (cs : List Conn) : Prop :=
  ∀ c ∈ cs, c.isAvailable = true → c.partnerId = none

/-- Inductive invariant of the local-mode server. -/
structure ServerInv (s : ServerState) : Prop where
  idsBound : ∀ c ∈ s.clients, c.id < s.nextId
  idsNodup : (s.clients.map Conn.id).Nodup
  symm : SymmetricPairs s.clients
  mutex : AvailMutex s.clients
  queueNodup : s.waitingQueue.Nodup

/-- One connection record satisfies the pointing-back half of the claimed
registry invariant. -/
def pointsBackProp (cs : List Conn) (c : Conn) : Prop :=
  ∀ p, c.partnerId = some p → ∃ d ∈ cs, d.id = p ∧ d.partnerId = some c.id

/-- The quiescent-state invariant exactly as claimed: partner symmetry plus
mutual exclusion of `available` and `partnerId`. -/
def ClaimC1Inv (cs : List Conn) : Prop :=
  (∀ c ∈ cs, pointsBackProp cs c) ∧ (∀ c ∈ cs, c.isAvailable = true → c.partnerId = none)

instance (cs : List Conn) (c : Conn) : Decidable (pointsBackProp cs c) :=
  match h : c.partnerId with
  | none => isTrue (by intro p hp; rw [h] at hp; cases hp)
  | some q =>
    decidable_of_iff (∃ d ∈ cs, d.id = q ∧ d.partnerId = some c.id) (by
      constructor
      · intro hq p hp
        rw [h] at hp
        cases hp
        exact hq
      · intro hall
        exact hall q h)

instance (cs : List Conn) : Decidable (ClaimC1Inv cs) :=
  decidable_of_iff ((∀ c ∈ cs, pointsBackProp cs c) ∧
    (∀ c ∈ cs, c.isAvailable = true → c.partnerId = none)) Iff.rfl

/-- Steps of a pure admission trace: connections and availability
declarations only (the setting of the FIFO pairing claim). -/
inductive AStep : ServerState → ServerState → Prop
  | connect (s : ServerState) : AStep s (connectClient s)
  | avail (s : ServerState) (cid : Nat) : AStep s (handleAvailableL s cid)

/-- States reachable from process start by connections and availability
declarations alone. -/
inductive ReachableA : ServerState → Prop
  | init : ReachableA initState
  | step {s t : ServerState} : ReachableA s → AStep s t → ReachableA t

/-- Strengthened invariant of pure admission traces: the general invariant,
the queue characterizes exactly the available unpaired ids, and the queue
holds at most one entry. -/
structure AInv (s : ServerState) : Prop where
  base : ServerInv s
  queueChar : ∀ x, x ∈ s.waitingQueue ↔
    ∃ c ∈ s.clients, c.id = x ∧ c.isAvailable = true ∧ c.partnerId = none
  queueLen : s.waitingQueue.length ≤ 1

/-- Repeated delivery of one message to one connection at a fixed time
(`k` messages inside a single rate-limit window). -/
def iterateMsg (req : Bool) (maxPerSec : Nat) (cid now : Nat) (m : ClientMsg) :
    Nat → ServerState → ServerState
  | 0, s => s
  | k+1, s => iterateMsg req maxPerSec cid now m k (wsMessage req maxPerSec s cid now m)

/-- `redis.lpush(list, x)`: push onto the head of the shared list. -/
def lpush (x : Nat) (l : List Nat) : List Nat := x :: l

/-- `redis.rpop(list)`: pop from the tail of the shared list (`none` when
empty), so `lpush`/`rpop` together form the distributed FIFO. -/
def rpop (l : List Nat) : Option Nat × List Nat :=
  match l.getLast? with
  | none => (none, l)
  | some x => (some x, l.dropLast)

/-- `tryMatchGlobal(selfId)`: bounded loop (five attempts in the source)
popping the shared waiting list, pushing back and retrying on a self-pop. -/
def tryMatchGlobal (selfId : Nat) : Nat → List Nat → Option Nat × List Nat
  | 0, l => (none, l)
  | fuel+1, l =>
    match rpop l with
    | (none, l1) => (none, l1)
    | (some pid, l1) =>
      if pid = selfId then tryMatchGlobal selfId fuel (lpush pid l1)
      else (some pid, l1)

/-- Two cooperating server instances (A and B) in distributed mode: each has
its own registry and local queue, and they share the Redis waiting list, the
pub/sub channel (its deliveries land in `outbox`) and the id generator. -/
structure DWorld where
  instA : List Conn
  instB : List Conn
  queueA : List Nat
  queueB : List Nat
  redisList : List Nat
  outbox : List (Nat × OutMsg)
  nextId : Nat
  deriving DecidableEq

/-- The registry of the chosen instance. -/
def DWorld.reg (w : DWorld) (inst : Bool) : List Conn :=
  if inst then w.instA else w.instB

/-- The local waiting queue of the chosen instance. -/
def DWorld.localQ (w : DWorld) (inst : Bool) : List Nat :=
  if inst then w.queueA else w.queueB

/-- Replace the registry of the chosen instance. -/
def DWorld.setReg (w : DWorld) (inst : Bool) (cs : List Conn) : DWorld :=
  if inst then { w with instA := cs } else { w with instB := cs }

/-- Replace the local waiting queue of the chosen instance. -/
def DWorld.setLocalQ (w : DWorld) (inst : Bool) (q : List Nat) : DWorld :=
  if inst then { w with queueA := q } else { w with queueB := q }

/-- `publishSignal(partnerId, payload)` plus the subscriber callback on the
other instance: the payload is delivered to the destination socket; no
connection record is modified anywhere. -/
def publishSignal (w : DWorld) (dest : Nat) (m : OutMsg) : DWorld :=
  { w with outbox := w.outbox ++ [(dest, m)] }

/-- `sendToClient` in the two-instance world. -/
def sendD (w : DWorld) (dest : Nat) (m : OutMsg) : DWorld :=
  { w with outbox := w.outbox ++ [(dest, m)] }

/-- `createRoom(client1, client2)` run by one instance. -/
def createRoomD (w : DWorld) (inst : Bool) (id1 id2 : Nat) : DWorld :=
  let roomId := w.nextId
  let cs1 := updateClient (w.reg inst) id1
    (fun c => { c with partnerId := some id2, roomId := some roomId, isAvailable := false })
  let cs2 := updateClient cs1 id2
    (fun c => { c with partnerId := some id1, roomId := some roomId, isAvailable := false })
  let w1 := w.setReg inst cs2
  let w2 := w1.setLocalQ inst
    (removeFromQueue (removeFromQueue (w1.localQ inst) id1) id2)
  { w2 with
    outbox := w2.outbox ++ [(id1, OutMsg.matched roomId id2), (id2, OutMsg.matched roomId id1)]
    nextId := w2.nextId + 1 }

/-- `handleAvailable(client)` with Redis configured: pop a partner from the
shared list; pair locally when the popped id is in this registry, else set
the local fields only and publish a `matched` envelope; enqueue globally
with `lpush` (no membership check) when nothing was popped. -/
def handleAvailableD (w : DWorld) (inst : Bool) (cid : Nat) : DWorld :=
  match lookupClient (w.reg inst) cid with
  | none => w
  | some c =>
    if c.partnerId.isSome then
      sendD w cid (OutMsg.errMsg ErrCode.alreadyPaired)
    else
      let w1 := w.setReg inst
        (updateClient (w.reg inst) cid (fun d => { d with isAvailable := true }))
      match tryMatchGlobal cid 5 w1.redisList with
      | (some pid, l1) =>
        let w2 := { w1 with redisList := l1 }
        match lookupClient (w2.reg inst) pid with
        | some _ => createRoomD w2 inst cid pid
        | none =>
          let roomId := w2.nextId
          let w3 := w2.setReg inst (updateClient (w2.reg inst) cid
            (fun d => { d with partnerId := some pid, roomId := some roomId, isAvailable := false }))
          let w4 := { w3 with nextId := w3.nextId + 1 }
          let w5 := sendD w4 cid (OutMsg.matched roomId pid)
          publishSignal w5 pid (OutMsg.matched roomId cid)
      | (none, l1) => { w1 with redisList := lpush cid l1 }

/-- Connection setup on one instance of the distributed deployment. -/
def connectD (w : DWorld) (inst : Bool) : DWorld :=
  let cid := w.nextId
  let w1 := w.setReg inst (w.reg inst ++ [freshConn cid])
  { w1 with
    outbox := w1.outbox ++ [(cid, OutMsg.ready cid)]
    nextId := w1.nextId + 1 }

/-- Empty two-instance world. -/
def initDWorld : DWorld :=
  { instA := [], instB := [], queueA := [], queueB := [], redisList := [],
    outbox := [], nextId := 0 }

/-- Distributed run: client 0 connects to instance B and declares available
(entering the shared list); client 1 connects to instance A and declares
available, popping 0 and matching it remotely. -/
def dTraceC1 : DWorld :=
  handleAvailableD (connectD (handleAvailableD (connectD initDWorld false) false 0) true) true 1

/-- Distributed run: one client connects to instance A and declares
available twice in a row. -/
def dTraceC4 : DWorld :=
  handleAvailableD (handleAvailableD (connectD initDWorld true) true 0) true 0

/-- Postcondition of local pairing as claimed: symmetric partner fields
sharing the fresh room id, cleared availability flags, removal of both ids
from the waiting queue, `matched` notifications to both sides naming each
other and the room, all other records and the generated room id fresh with
respect to every previously assigned room id. -/
def CreateRoomSpec (s : ServerState) (a b : Nat) (ca cb : Conn) : Prop :=
  lookupClient (createRoom s a b).clients a =
      some { ca with partnerId := some b, roomId := some s.nextId, isAvailable := false } ∧
  lookupClient (createRoom s a b).clients b =
      some { cb with partnerId := some a, roomId := some s.nextId, isAvailable := false } ∧
  (∀ x : Nat, a ≠ x → b ≠ x →
    lookupClient (createRoom s a b).clients x = lookupClient s.clients x) ∧
  (createRoom s a b).waitingQueue = removeFromQueue (removeFromQueue s.waitingQueue a) b ∧
  a ∉ (createRoom s a b).waitingQueue ∧
  b ∉ (createRoom s a b).waitingQueue ∧
  (createRoom s a b).outbox =
    s.outbox ++ [(a, OutMsg.matched s.nextId b), (b, OutMsg.matched s.nextId a)] ∧
  (∀ c ∈ s.clients, ∀ r : Nat, c.roomId = some r → r ≠ s.nextId)

example : handleAvailableL (connectClient (connectClient initState)) 0 =
    { clients := [{ freshConn 0 with isAvailable := true }, freshConn 1],
      waitingQueue := [0],
      outbox := [(0, OutMsg.ready 0), (1, OutMsg.ready 1)], nextId := 2 } := by decide

example :
    (handleAvailableL (handleAvailableL (connectClient (connectClient initState)) 0) 1).clients
    = [{ freshConn 0 with partnerId := some 1, roomId := some 2 },
       { freshConn 1 with partnerId := some 0, roomId := some 2 }] := by decide

/-! ### Registry and queue lemmas -/

theorem lookupClient_mem_id {cs : List Conn} {i : Nat} {c : Conn}
    (h : lookupClient cs i = some c) : c ∈ cs ∧ c.id = i := by
  refine ⟨List.mem_of_find?_eq_some h, ?_⟩
  have hp := List.find?_some h
  simpa using hp

theorem lookupClient_eq_none_iff {cs : List Conn} {i : Nat} :
    lookupClient cs i = none ↔ ∀ c ∈ cs, c.id ≠ i := by
  simp [lookupClient, List.find?_eq_none]

theorem lookupClient_isSome_of_mem {cs : List Conn} {c : Conn} (hc : c ∈ cs) :
    ∃ d, lookupClient cs c.id = some d ∧ d ∈ cs ∧ d.id = c.id := by
  cases h : lookupClient cs c.id with
  | none => exact absurd rfl (lookupClient_eq_none_iff.mp h c hc)
  | some d => exact ⟨d, rfl, (lookupClient_mem_id h).1, (lookupClient_mem_id h).2⟩

theorem eq_of_id_eq {cs : List Conn} (hnd : (cs.map Conn.id).Nodup)
    {c1 c2 : Conn} (h1 : c1 ∈ cs) (h2 : c2 ∈ cs) (h : c1.id = c2.id) : c1 = c2 := by
  induction cs with
  | nil => cases h1
  | cons a l ih =>
    simp only [List.map_cons, List.nodup_cons] at hnd
    rcases List.mem_cons.mp h1 with he1 | ht1
    · rcases List.mem_cons.mp h2 with he2 | ht2
      · rw [he1, he2]
      · subst he1
        exact (hnd.1 (by rw [h]; exact List.mem_map_of_mem _ ht2)).elim
    · rcases List.mem_cons.mp h2 with he2 | ht2
      · subst he2
        exact (hnd.1 (by rw [← h]; exact List.mem_map_of_mem _ ht1)).elim
      · exact ih hnd.2 ht1 ht2

theorem lookupClient_of_mem {cs : List Conn} (hnd : (cs.map Conn.id).Nodup)
    {c : Conn} (hc : c ∈ cs) : lookupClient cs c.id = some c := by
  obtain ⟨d, hd, hdm, hdi⟩ := lookupClient_isSome_of_mem hc
  rw [eq_of_id_eq hnd hdm hc hdi] at hd
  exact hd

theorem updateClient_map_id (cs : List Conn) (i : Nat) (f : Conn → Conn)
    (hf : ∀ c, (f c).id = c.id) :
    (updateClient cs i f).map Conn.id = cs.map Conn.id := by
  unfold updateClient
  rw [List.map_map]
  apply List.map_congr_left
  intro c _
  by_cases h : c.id = i <;> simp [h, hf]

theorem mem_updateClient {cs : List Conn} {i : Nat} {f : Conn → Conn} {c' : Conn}
    (h : c' ∈ updateClient cs i f) :
    ∃ c ∈ cs, c' = if c.id = i then f c else c := by
  obtain ⟨c, hc, he⟩ := List.mem_map.mp h
  exact ⟨c, hc, he.symm⟩

theorem updateClient_mem_image {cs : List Conn} {c : Conn} (hc : c ∈ cs)
    (i : Nat) (f : Conn → Conn) :
    (if c.id = i then f c else c) ∈ updateClient cs i f :=
  List.mem_map_of_mem _ hc

theorem find?_cons_unfold (p : Conn → Bool) (a : Conn) (l : List Conn) :
    List.find? p (a :: l) = if p a then some a else List.find? p l := by
  by_cases h : p a
  · rw [List.find?_cons_of_pos _ h, if_pos h]
  · rw [List.find?_cons_of_neg _ (by simpa using h), if_neg h]

theorem lookupClient_updateClient_self (cs : List Conn) (i : Nat) (f : Conn → Conn)
    (hf : ∀ c, (f c).id = c.id) :
    lookupClient (updateClient cs i f) i = (lookupClient cs i).map f := by
  induction cs with
  | nil => rfl
  | cons a l ih =>
    show lookupClient ((if a.id = i then f a else a) :: updateClient l i f) i = _
    by_cases h : a.id = i
    · rw [if_pos h]
      unfold lookupClient
      rw [find?_cons_unfold, find?_cons_unfold]
      have h1 : ((f a).id == i) = true := by simp [hf, h]
      have h2 : (a.id == i) = true := by simp [h]
      rw [h1, h2]
      simp
    · rw [if_neg h]
      unfold lookupClient
      rw [find?_cons_unfold, find?_cons_unfold]
      have h2 : (a.id == i) = false := by simp [h]
      rw [h2]
      simpa using ih

theorem lookupClient_updateClient_ne (cs : List Conn) (i j : Nat) (f : Conn → Conn)
    (hf : ∀ c, (f c).id = c.id) (hij : i ≠ j) :
    lookupClient (updateClient cs i f) j = lookupClient cs j := by
  induction cs with
  | nil => rfl
  | cons a l ih =>
    show lookupClient ((if a.id = i then f a else a) :: updateClient l i f) j = _
    by_cases h : a.id = i
    · rw [if_pos h]
      unfold lookupClient
      rw [find?_cons_unfold, find?_cons_unfold]
      have hja : ¬ a.id = j := fun hj => hij (h.symm.trans hj)
      have h1 : ((f a).id == j) = false := by simp [hf, h, fun hj => hij hj]
      have h2 : (a.id == j) = false := by simp [hja]
      rw [h1, h2]
      simpa using ih
    · rw [if_neg h]
      unfold lookupClient
      rw [find?_cons_unfold, find?_cons_unfold]
      by_cases hja : a.id = j
      · have h2 : (a.id == j) = true := by simp [hja]
        rw [h2]
        simp
      · have h2 : (a.id == j) = false := by simp [hja]
        rw [h2]
        simpa using ih

theorem find?_updateClient_eq (cs : List Conn) (i : Nat) (f : Conn → Conn) (p : Conn → Bool)
    (hp : ∀ c, c.id = i → p c = false ∧ p (f c) = false) :
    List.find? p (updateClient cs i f) = List.find? p cs := by
  induction cs with
  | nil => rfl
  | cons a l ih =>
    show List.find? p ((if a.id = i then f a else a) :: updateClient l i f) = _
    by_cases h : a.id = i
    · rw [if_pos h, find?_cons_unfold, find?_cons_unfold, (hp a h).1, (hp a h).2]
      simpa using ih
    · rw [if_neg h, find?_cons_unfold, find?_cons_unfold]
      by_cases hpa : p a
      · rw [if_pos hpa, if_pos hpa]
      · rw [if_neg hpa, if_neg hpa]
        exact ih

theorem removeFromQueue_sublist (q : List Nat) (i : Nat) :
    (removeFromQueue q i).Sublist q := by
  induction q with
  | nil => exact List.Sublist.refl _
  | cons x xs ih =>
    by_cases h : x = i
    · simp only [removeFromQueue, if_pos h]
      exact (List.Sublist.refl xs).cons x
    · simp only [removeFromQueue, if_neg h]
      exact ih.cons₂ x

theorem removeFromQueue_of_not_mem {q : List Nat} {i : Nat} (h : i ∉ q) :
    removeFromQueue q i = q := by
  induction q with
  | nil => rfl
  | cons x xs ih =>
    have hx : ¬ x = i := by rintro rfl; exact h (List.mem_cons_self x xs)
    simp only [removeFromQueue, if_neg hx]
    rw [ih (fun hm => h (List.mem_cons_of_mem x hm))]

theorem not_mem_removeFromQueue {q : List Nat} (hnd : q.Nodup) (i : Nat) :
    i ∉ removeFromQueue q i := by
  induction q with
  | nil => simp [removeFromQueue]
  | cons x xs ih =>
    rw [List.nodup_cons] at hnd
    by_cases h : x = i
    · simp only [removeFromQueue, if_pos h]
      exact h ▸ hnd.1
    · simp only [removeFromQueue, if_neg h]
      intro hm
      rcases List.mem_cons.mp hm with he | hm2
      · exact h he.symm
      · exact ih hnd.2 hm2

theorem removeFromQueue_nodup {q : List Nat} (hnd : q.Nodup) (i : Nat) :
    (removeFromQueue q i).Nodup :=
  List.Nodup.sublist (removeFromQueue_sublist q i) hnd

theorem symmetricPairs_updateClient {cs : List Conn} {i : Nat} {f : Conn → Conn}
    (hid : ∀ c, (f c).id = c.id) (hpr : ∀ c, (f c).partnerId = c.partnerId)
    (h : SymmetricPairs cs) : SymmetricPairs (updateClient cs i f) := by
  intro c' hc' p hcp
  obtain ⟨c, hc, hce⟩ := mem_updateClient hc'
  have hcid : c'.id = c.id := by
    rw [hce]; by_cases hi : c.id = i <;> simp [hi, hid]
  have hcpart : c'.partnerId = c.partnerId := by
    rw [hce]; by_cases hi : c.id = i <;> simp [hi, hpr]
  obtain ⟨hpne, d, hd, hdi, hdp⟩ := h c hc p (hcpart ▸ hcp)
  refine ⟨by rw [hcid]; exact hpne, ?_⟩
  refine ⟨if d.id = i then f d else d, updateClient_mem_image hd i f, ?_, ?_⟩
  · by_cases hdif : d.id = i
    · rw [if_pos hdif, hid]
      exact hdi
    · rw [if_neg hdif]
      exact hdi
  · by_cases hdif : d.id = i
    · rw [if_pos hdif, hpr, hcid]
      exact hdp
    · rw [if_neg hdif, hcid]
      exact hdp

theorem availMutex_updateClient {cs : List Conn} {i : Nat} {f : Conn → Conn}
    (hpr : ∀ c, (f c).partnerId = c.partnerId)
    (hav : ∀ c, (f c).isAvailable = c.isAvailable)
    (h : AvailMutex cs) : AvailMutex (updateClient cs i f) := by
  intro c' hc' hca
  obtain ⟨c, hc, hce⟩ := mem_updateClient hc'
  have hcpart : c'.partnerId = c.partnerId := by
    rw [hce]; by_cases hi : c.id = i <;> simp [hi, hpr]
  have hcav : c'.isAvailable = c.isAvailable := by
    rw [hce]; by_cases hi : c.id = i <;> simp [hi, hav]
  rw [hcpart]
  exact h c hc (hcav ▸ hca)

/-! ### Composite update lemmas -/

theorem mem_updateClient2 {cs : List Conn} {i1 i2 : Nat} {f1 f2 : Conn → Conn}
    (hf1 : ∀ c, (f1 c).id = c.id) {x : Conn}
    (hx : x ∈ updateClient (updateClient cs i1 f1) i2 f2) :
    ∃ e ∈ cs, x = if e.id = i2 then f2 (if e.id = i1 then f1 e else e)
                  else if e.id = i1 then f1 e else e := by
  obtain ⟨y, hy, hxy⟩ := mem_updateClient hx
  obtain ⟨e, he, hye⟩ := mem_updateClient hy
  refine ⟨e, he, ?_⟩
  subst hxy
  subst hye
  by_cases h1 : e.id = i1
  · simp only [if_pos h1]
    rw [hf1 e]
  · simp only [if_neg h1]

theorem mem_updateClient2_image {cs : List Conn} {i1 i2 : Nat} {f1 f2 : Conn → Conn}
    (hf1 : ∀ c, (f1 c).id = c.id) {e : Conn} (he : e ∈ cs) :
    (if e.id = i2 then f2 (if e.id = i1 then f1 e else e)
     else if e.id = i1 then f1 e else e) ∈ updateClient (updateClient cs i1 f1) i2 f2 := by
  have h1 := updateClient_mem_image he i1 f1
  have h2 := updateClient_mem_image h1 i2 f2
  have hyid : (if e.id = i1 then f1 e else e).id = e.id := by
    by_cases hc1 : e.id = i1 <;> simp [hc1, hf1]
  rw [hyid] at h2
  exact h2

theorem updateClient_updateClient_same (cs : List Conn) (i : Nat) (f g : Conn → Conn)
    (hf : ∀ c, (f c).id = c.id) :
    updateClient (updateClient cs i f) i g = updateClient cs i (fun c => g (f c)) := by
  unfold updateClient
  rw [List.map_map]
  apply List.map_congr_left
  intro c _
  by_cases h : c.id = i <;> simp [h, hf]

theorem idsBound_updateClient {cs : List Conn} {n i : Nat} {f : Conn → Conn}
    (hid : ∀ c, (f c).id = c.id) (hb : ∀ c ∈ cs, c.id < n) :
    ∀ c ∈ updateClient cs i f, c.id < n := by
  intro x hx
  obtain ⟨e, he, hxe⟩ := mem_updateClient hx
  have hxi : x.id = e.id := by
    rw [hxe]; by_cases h : e.id = i <;> simp [h, hid]
  rw [hxi]
  exact hb e he

theorem availMutex_setAvail {cs : List Conn} (hnd : (cs.map Conn.id).Nodup)
    {c : Conn} (hc : c ∈ cs) (hcp : c.partnerId = none)
    {i : Nat} (hci : c.id = i) {f : Conn → Conn}
    (hpr : ∀ e, (f e).partnerId = e.partnerId)
    (hm : AvailMutex cs) : AvailMutex (updateClient cs i f) := by
  intro x hx hav
  obtain ⟨e, he, hxe⟩ := mem_updateClient hx
  by_cases h1 : e.id = i
  · have hec : e = c := eq_of_id_eq hnd he hc (by rw [h1, hci])
    rw [hxe, if_pos h1, hpr, hec]
    exact hcp
  · rw [hxe, if_neg h1]
    rw [hxe, if_neg h1] at hav
    exact hm e he hav

theorem availMutex_clearPartner {cs : List Conn} {i : Nat} {f : Conn → Conn}
    (hpn : ∀ e, (f e).partnerId = none)
    (hm : AvailMutex cs) : AvailMutex (updateClient cs i f) := by
  intro x hx hav
  obtain ⟨e, he, hxe⟩ := mem_updateClient hx
  by_cases h1 : e.id = i
  · rw [hxe, if_pos h1]
    exact hpn e
  · rw [hxe, if_neg h1]
    rw [hxe, if_neg h1] at hav
    exact hm e he hav

theorem noref_of_unpaired {cs : List Conn} (hnd : (cs.map Conn.id).Nodup)
    (hsym : SymmetricPairs cs) {c : Conn} (hc : c ∈ cs)
    (hcp : c.partnerId = none) : ∀ e ∈ cs, e.partnerId ≠ some c.id := by
  intro e he hep
  obtain ⟨hq, d0, hd0, hd0i, hd0p⟩ := hsym e he c.id hep
  have hd0c : d0 = c := eq_of_id_eq hnd hd0 hc hd0i
  rw [hd0c, hcp] at hd0p
  cases hd0p

theorem symmetricPairs_clear_unreferenced {cs : List Conn}
    (hsym : SymmetricPairs cs) {i : Nat} {f : Conn → Conn}
    (_hid : ∀ e, (f e).id = e.id) (hpn : ∀ e, (f e).partnerId = none)
    (hnoref : ∀ e ∈ cs, e.partnerId ≠ some i) :
    SymmetricPairs (updateClient cs i f) := by
  intro x hx p hp
  obtain ⟨e, he, hxe⟩ := mem_updateClient hx
  by_cases h1 : e.id = i
  · rw [hxe, if_pos h1, hpn] at hp
    cases hp
  · rw [hxe, if_neg h1] at hp
    obtain ⟨hq, d0, hd0, hd0i, hd0p⟩ := hsym e he p hp
    have hpi : p ≠ i := by
      rintro rfl
      exact hnoref e he hp
    have hd0img := updateClient_mem_image hd0 i f
    rw [if_neg (by rw [hd0i]; exact hpi)] at hd0img
    rw [hxe, if_neg h1]
    exact ⟨hq, d0, hd0img, hd0i, hd0p⟩

theorem symmetricPairs_teardown {cs : List Conn} (hnd : (cs.map Conn.id).Nodup)
    (hsym : SymmetricPairs cs) {c d : Conn} (hc : c ∈ cs) (hd : d ∈ cs)
    (hcd : c.partnerId = some d.id) (hdc : d.partnerId = some c.id)
    {fp fc : Conn → Conn}
    (hfpid : ∀ e, (fp e).id = e.id) (hfpn : ∀ e, (fp e).partnerId = none)
    (_hfcid : ∀ e, (fc e).id = e.id) (hfcn : ∀ e, (fc e).partnerId = none) :
    SymmetricPairs (updateClient (updateClient cs d.id fp) c.id fc) := by
  intro x hx p hp
  obtain ⟨e, he, hxe⟩ := mem_updateClient2 hfpid hx
  by_cases h2 : e.id = c.id
  · rw [hxe, if_pos h2, hfcn] at hp
    cases hp
  · by_cases h1 : e.id = d.id
    · rw [hxe, if_neg h2, if_pos h1, hfpn] at hp
      cases hp
    · rw [hxe, if_neg h2, if_neg h1] at hp
      obtain ⟨hq, d0, hd0, hd0i, hd0p⟩ := hsym e he p hp
      have hd0c : d0.id ≠ c.id := by
        intro hh
        have hd0e : d0 = c := eq_of_id_eq hnd hd0 hc hh
        rw [hd0e, hcd] at hd0p
        injection hd0p with hh2
        exact h1 hh2.symm
      have hd0d : d0.id ≠ d.id := by
        intro hh
        have hd0e : d0 = d := eq_of_id_eq hnd hd0 hd hh
        rw [hd0e, hdc] at hd0p
        injection hd0p with hh2
        exact h2 hh2.symm
      have hd0img := @mem_updateClient2_image cs d.id c.id fp fc hfpid d0 hd0
      rw [if_neg hd0c, if_neg hd0d] at hd0img
      rw [hxe, if_neg h2, if_neg h1]
      exact ⟨hq, d0, hd0img, hd0i, hd0p⟩

theorem symmetricPairs_filter_unreferenced {cs : List Conn}
    (hsym : SymmetricPairs cs) {i : Nat}
    (hnoref : ∀ e ∈ cs, e.partnerId ≠ some i) :
    SymmetricPairs (cs.filter (fun e => e.id ≠ i)) := by
  intro x hx p hp
  have hxm : x ∈ cs := List.mem_of_mem_filter hx
  obtain ⟨hq, d0, hd0, hd0i, hd0p⟩ := hsym x hxm p hp
  have hpi : p ≠ i := by
    rintro rfl
    exact hnoref x hxm hp
  refine ⟨hq, d0, List.mem_filter.mpr ⟨hd0, by simp [hd0i, hpi]⟩, hd0i, hd0p⟩

theorem symmetricPairs_disconnect {cs : List Conn} (hnd : (cs.map Conn.id).Nodup)
    (hsym : SymmetricPairs cs) {c d : Conn} (hc : c ∈ cs) (hd : d ∈ cs)
    (hcd : c.partnerId = some d.id) (hdc : d.partnerId = some c.id)
    {fp : Conn → Conn}
    (_hfpid : ∀ e, (fp e).id = e.id) (hfpn : ∀ e, (fp e).partnerId = none) :
    SymmetricPairs ((updateClient cs d.id fp).filter (fun e => e.id ≠ c.id)) := by
  intro x hx p hp
  have hxm : x ∈ updateClient cs d.id fp := List.mem_of_mem_filter hx
  have hxc : x.id ≠ c.id := by simpa using List.of_mem_filter hx
  obtain ⟨e, he, hxe⟩ := mem_updateClient hxm
  by_cases h1 : e.id = d.id
  · rw [hxe, if_pos h1, hfpn] at hp
    cases hp
  · rw [hxe, if_neg h1] at hp
    obtain ⟨hq, d0, hd0, hd0i, hd0p⟩ := hsym e he p hp
    have hxeid : x.id = e.id := by rw [hxe, if_neg h1]
    have hd0c : d0.id ≠ c.id := by
      intro hh
      have hd0e : d0 = c := eq_of_id_eq hnd hd0 hc hh
      rw [hd0e, hcd] at hd0p
      injection hd0p with hh2
      exact h1 hh2.symm
    have hd0d : d0.id ≠ d.id := by
      intro hh
      have hd0e : d0 = d := eq_of_id_eq hnd hd0 hd hh
      rw [hd0e, hdc] at hd0p
      injection hd0p with hh2
      exact hxc (by rw [hxeid, ← hh2])
    have hd0img := updateClient_mem_image hd0 d.id fp
    rw [if_neg hd0d] at hd0img
    rw [hxe, if_neg h1]
    refine ⟨hq, d0, List.mem_filter.mpr ⟨hd0img, by simp [hd0c]⟩, hd0i, hd0p⟩

theorem availMutex_filter {cs : List Conn} {p : Conn → Bool} (hm : AvailMutex cs) :
    AvailMutex (cs.filter p) :=
  fun c hc => hm c (List.mem_of_mem_filter hc)

theorem idsNodup_filter {cs : List Conn} (h : (cs.map Conn.id).Nodup) (p : Conn → Bool) :
    ((cs.filter p).map Conn.id).Nodup :=
  List.Nodup.sublist (List.Sublist.map _ (List.filter_sublist cs)) h

theorem nodup_append_single {q : List Nat} {i : Nat} (h : q.Nodup) (hi : i ∉ q) :
    (q ++ [i]).Nodup := by
  simp [List.nodup_append, h, hi]

theorem relayToPartnerL_clients (s : ServerState) (pid : Nat) (m : OutMsg) :
    (relayToPartnerL s pid m).clients = s.clients := by
  unfold relayToPartnerL
  cases lookupClient s.clients pid <;> rfl

theorem relayToPartnerL_queue (s : ServerState) (pid : Nat) (m : OutMsg) :
    (relayToPartnerL s pid m).waitingQueue = s.waitingQueue := by
  unfold relayToPartnerL
  cases lookupClient s.clients pid <;> rfl

theorem relayToPartnerL_nextId (s : ServerState) (pid : Nat) (m : OutMsg) :
    (relayToPartnerL s pid m).nextId = s.nextId := by
  unfold relayToPartnerL
  cases lookupClient s.clients pid <;> rfl

theorem serverInv_of_eq {s t : ServerState} (hc : t.clients = s.clients)
    (hq : t.waitingQueue = s.waitingQueue) (hn : t.nextId = s.nextId)
    (h : ServerInv s) : ServerInv t := by
  refine ⟨?_, ?_, ?_, ?_, ?_⟩
  · rw [hc, hn]; exact h.idsBound
  · rw [hc]; exact h.idsNodup
  · rw [hc]; exact h.symm
  · rw [hc]; exact h.mutex
  · rw [hq]; exact h.queueNodup

/-! ### Projection lemmas for the handlers -/

theorem createRoom_clients (s : ServerState) (id1 id2 : Nat) :
    (createRoom s id1 id2).clients =
      updateClient (updateClient s.clients id1
        (fun c => { c with partnerId := some id2, roomId := some s.nextId, isAvailable := false }))
        id2
        (fun c => { c with partnerId := some id1, roomId := some s.nextId, isAvailable := false }) :=
  rfl

theorem createRoom_queue (s : ServerState) (id1 id2 : Nat) :
    (createRoom s id1 id2).waitingQueue =
      removeFromQueue (removeFromQueue s.waitingQueue id1) id2 :=
  rfl

theorem createRoom_outbox (s : ServerState) (id1 id2 : Nat) :
    (createRoom s id1 id2).outbox =
      s.outbox ++ [(id1, OutMsg.matched s.nextId id2), (id2, OutMsg.matched s.nextId id1)] :=
  rfl

theorem createRoom_nextId (s : ServerState) (id1 id2 : Nat) :
    (createRoom s id1 id2).nextId = s.nextId + 1 :=
  rfl

theorem resetPartner_clients_none {req : Bool} {s : ServerState} {pid : Nat}
    (hd : lookupClient s.clients pid = none) :
    resetPartnerAndMaybeRequeue req s pid = s := by
  unfold resetPartnerAndMaybeRequeue
  rw [hd]

theorem resetPartner_clients_some {req : Bool} {s : ServerState} {pid : Nat} {d : Conn}
    (hd : lookupClient s.clients pid = some d) :
    (resetPartnerAndMaybeRequeue req s pid).clients =
      if req then
        updateClient (updateClient s.clients pid
          (fun c => { c with partnerId := none, roomId := none })) pid
          (fun c => { c with isAvailable := true })
      else
        updateClient s.clients pid (fun c => { c with partnerId := none, roomId := none }) := by
  unfold resetPartnerAndMaybeRequeue
  rw [hd]
  by_cases hr : req = true
  · rw [if_pos hr, if_pos hr]
    by_cases hq : pid ∈ s.waitingQueue
    · rw [if_pos hq]
    · rw [if_neg hq]
  · rw [if_neg hr, if_neg hr]

theorem resetPartner_queue_some {req : Bool} {s : ServerState} {pid : Nat} {d : Conn}
    (hd : lookupClient s.clients pid = some d) :
    (resetPartnerAndMaybeRequeue req s pid).waitingQueue =
      if req then
        (if pid ∈ s.waitingQueue then s.waitingQueue else s.waitingQueue ++ [pid])
      else s.waitingQueue := by
  unfold resetPartnerAndMaybeRequeue
  rw [hd]
  by_cases hr : req = true
  · rw [if_pos hr, if_pos hr]
    by_cases hq : pid ∈ s.waitingQueue
    · rw [if_pos hq, if_pos hq]
    · rw [if_neg hq, if_neg hq]
  · rw [if_neg hr, if_neg hr]

theorem resetPartner_nextId {req : Bool} {s : ServerState} {pid : Nat} :
    (resetPartnerAndMaybeRequeue req s pid).nextId = s.nextId := by
  unfold resetPartnerAndMaybeRequeue
  cases lookupClient s.clients pid with
  | none => rfl
  | some d =>
    by_cases hr : req = true
    · rw [if_pos hr]
      by_cases hq : pid ∈ s.waitingQueue
      · rw [if_pos hq]
      · rw [if_neg hq]
    · rw [if_neg hr]

theorem resetPartner_outbox {req : Bool} {s : ServerState} {pid : Nat} :
    (resetPartnerAndMaybeRequeue req s pid).outbox = s.outbox := by
  unfold resetPartnerAndMaybeRequeue
  cases lookupClient s.clients pid with
  | none => rfl
  | some d =>
    by_cases hr : req = true
    · rw [if_pos hr]
      by_cases hq : pid ∈ s.waitingQueue
      · rw [if_pos hq]
      · rw [if_neg hq]
    · rw [if_neg hr]

/-! ### Pairing and teardown preserve the invariant -/

theorem availMutex_setUnavail {cs : List Conn} {i : Nat} {f : Conn → Conn}
    (hav : ∀ e, (f e).isAvailable = false)
    (hm : AvailMutex cs) : AvailMutex (updateClient cs i f) := by
  intro x hx hxa
  obtain ⟨e, he, hxe⟩ := mem_updateClient hx
  by_cases h1 : e.id = i
  · rw [hxe, if_pos h1, hav] at hxa
    cases hxa
  · rw [hxe, if_neg h1] at hxa
    rw [hxe, if_neg h1]
    exact hm e he hxa

theorem symmetricPairs_createRoom {cs : List Conn} (hnd : (cs.map Conn.id).Nodup)
    (hsym : SymmetricPairs cs) {c d : Conn} (hc : c ∈ cs) (hd : d ∈ cs)
    (hcp : c.partnerId = none) (hdp : d.partnerId = none) (hne : c.id ≠ d.id) (r : Nat) :
    SymmetricPairs (updateClient (updateClient cs c.id
      (fun e => { e with partnerId := some d.id, roomId := some r, isAvailable := false })) d.id
      (fun e => { e with partnerId := some c.id, roomId := some r, isAvailable := false })) := by
  intro x hx p hp
  obtain ⟨e, he, hxe⟩ := @mem_updateClient2 cs c.id d.id
    (fun e => { e with partnerId := some d.id, roomId := some r, isAvailable := false })
    (fun e => { e with partnerId := some c.id, roomId := some r, isAvailable := false })
    (fun e => rfl) x hx
  by_cases h2 : e.id = d.id
  · have hin : ¬ e.id = c.id := by rw [h2]; exact fun hh => hne hh.symm
    rw [hxe, if_pos h2, if_neg hin] at hp ⊢
    have hxp : p = c.id := by
      have hps : some c.id = some p := hp
      injection hps with hh
      exact hh.symm
    subst hxp
    refine ⟨?_, ?_⟩
    · show c.id ≠ e.id
      rw [h2]
      exact hne
    · have himg := @mem_updateClient2_image cs c.id d.id
        (fun e => { e with partnerId := some d.id, roomId := some r, isAvailable := false })
        (fun e => { e with partnerId := some c.id, roomId := some r, isAvailable := false })
        (fun e => rfl) c hc
      rw [if_neg hne, if_pos rfl] at himg
      refine ⟨_, himg, rfl, ?_⟩
      show some d.id = some e.id
      rw [h2]
  · by_cases h1 : e.id = c.id
    · rw [hxe, if_neg h2, if_pos h1] at hp ⊢
      have hxp : p = d.id := by
        have hps : some d.id = some p := hp
        injection hps with hh
        exact hh.symm
      subst hxp
      refine ⟨?_, ?_⟩
      · show d.id ≠ e.id
        rw [h1]
        exact fun hh => hne hh.symm
      · have himg := @mem_updateClient2_image cs c.id d.id
          (fun e => { e with partnerId := some d.id, roomId := some r, isAvailable := false })
          (fun e => { e with partnerId := some c.id, roomId := some r, isAvailable := false })
          (fun e => rfl) d hd
        have hdc : ¬ d.id = c.id := fun hh => hne hh.symm
        rw [if_pos rfl, if_neg hdc] at himg
        refine ⟨_, himg, rfl, ?_⟩
        show some c.id = some e.id
        rw [h1]
    · rw [hxe, if_neg h2, if_neg h1] at hp ⊢
      obtain ⟨hq, d0, hd0, hd0i, hd0p⟩ := hsym e he p hp
      have hd0c : d0.id ≠ c.id := by
        intro hh
        have hd0e : d0 = c := eq_of_id_eq hnd hd0 hc hh
        rw [hd0e, hcp] at hd0p
        cases hd0p
      have hd0d : d0.id ≠ d.id := by
        intro hh
        have hd0e : d0 = d := eq_of_id_eq hnd hd0 hd hh
        rw [hd0e, hdp] at hd0p
        cases hd0p
      have himg := @mem_updateClient2_image cs c.id d.id
        (fun e => { e with partnerId := some d.id, roomId := some r, isAvailable := false })
        (fun e => { e with partnerId := some c.id, roomId := some r, isAvailable := false })
        (fun e => rfl) d0 hd0
      rw [if_neg hd0c, if_neg hd0d] at himg
      exact ⟨hq, d0, himg, hd0i, hd0p⟩

theorem serverInv_init : ServerInv initState := by
  refine ⟨?_, ?_, ?_, ?_, ?_⟩ <;> simp [initState, SymmetricPairs, AvailMutex]

theorem serverInv_connect {s : ServerState} (h : ServerInv s) : ServerInv (connectClient s) := by
  refine ⟨?_, ?_, ?_, ?_, h.queueNodup⟩
  · intro c hc
    rcases List.mem_append.mp hc with hc1 | hc2
    · exact Nat.lt_succ_of_lt (h.idsBound c hc1)
    · rw [List.mem_singleton.mp hc2]
      simp [freshConn, connectClient]
  · rw [show (connectClient s).clients = s.clients ++ [freshConn s.nextId] from rfl,
      List.map_append]
    refine List.Nodup.append h.idsNodup (List.nodup_singleton _) ?_
    intro a ha hb
    obtain ⟨c, hc, rfl⟩ := List.mem_map.mp ha
    have h1 : c.id < s.nextId := h.idsBound c hc
    have h2 : c.id = s.nextId := by simpa [freshConn] using hb
    omega
  · intro c hc p hp
    rcases List.mem_append.mp hc with hc1 | hc2
    · obtain ⟨hq, d, hd, hdi, hdp⟩ := h.symm c hc1 p hp
      exact ⟨hq, d, List.mem_append_left _ hd, hdi, hdp⟩
    · rw [List.mem_singleton.mp hc2] at hp
      simp [freshConn] at hp
  · intro c hc hav
    rcases List.mem_append.mp hc with hc1 | hc2
    · exact h.mutex c hc1 hav
    · rw [List.mem_singleton.mp hc2]
      simp [freshConn]

theorem serverInv_updateClient_compat {s : ServerState} {i : Nat} {f : Conn → Conn}
    (hid : ∀ c, (f c).id = c.id) (hpr : ∀ c, (f c).partnerId = c.partnerId)
    (hav : ∀ c, (f c).isAvailable = c.isAvailable) (h : ServerInv s) :
    ServerInv { s with clients := updateClient s.clients i f } := by
  refine ⟨?_, ?_, ?_, ?_, h.queueNodup⟩
  · exact idsBound_updateClient hid h.idsBound
  · rw [show ({ s with clients := updateClient s.clients i f } : ServerState).clients
        = updateClient s.clients i f from rfl, updateClient_map_id _ _ _ hid]
    exact h.idsNodup
  · exact symmetricPairs_updateClient hid hpr h.symm
  · exact availMutex_updateClient hpr hav h.mutex

theorem serverInv_createRoom {s : ServerState} {cid pid : Nat} {c d : Conn}
    (h : ServerInv s)
    (hc : lookupClient s.clients cid = some c) (hcp : c.partnerId = none)
    (hd : lookupClient s.clients pid = some d) (hdp : d.partnerId = none)
    (hne : cid ≠ pid) : ServerInv (createRoom s cid pid) := by
  obtain ⟨hcm, hci⟩ := lookupClient_mem_id hc
  obtain ⟨hdm, hdi⟩ := lookupClient_mem_id hd
  have hidne : c.id ≠ d.id := by rw [hci, hdi]; exact hne
  refine ⟨?_, ?_, ?_, ?_, ?_⟩
  · rw [createRoom_clients, createRoom_nextId]
    have hb1 := @idsBound_updateClient s.clients s.nextId cid
      (fun e => { e with partnerId := some pid, roomId := some s.nextId, isAvailable := false })
      (fun e => rfl) h.idsBound
    have hb2 := @idsBound_updateClient _ s.nextId pid
      (fun e => { e with partnerId := some cid, roomId := some s.nextId, isAvailable := false })
      (fun e => rfl) hb1
    exact fun x hx => Nat.lt_succ_of_lt (hb2 x hx)
  · rw [createRoom_clients,
      updateClient_map_id _ pid
        (fun e => { e with partnerId := some cid, roomId := some s.nextId, isAvailable := false })
        (fun e => rfl),
      updateClient_map_id s.clients cid
        (fun e => { e with partnerId := some pid, roomId := some s.nextId, isAvailable := false })
        (fun e => rfl)]
    exact h.idsNodup
  · rw [createRoom_clients, ← hci, ← hdi]
    exact symmetricPairs_createRoom h.idsNodup h.symm hcm hdm hcp hdp hidne s.nextId
  · rw [createRoom_clients]
    exact availMutex_setUnavail (fun e => rfl)
      (availMutex_setUnavail (fun e => rfl) h.mutex)
  · rw [createRoom_queue]
    exact removeFromQueue_nodup (removeFromQueue_nodup h.queueNodup _) _

theorem serverInv_send {s : ServerState} (h : ServerInv s) (dest : Nat) (m : OutMsg) :
    ServerInv (sendToClient s dest m) :=
  @serverInv_of_eq s (sendToClient s dest m) rfl rfl rfl h

theorem serverInv_setAvail {s : ServerState} (h : ServerInv s) {cid : Nat} {c : Conn}
    (hc : lookupClient s.clients cid = some c) (hcpn : c.partnerId = none) :
    ServerInv { s with clients := updateClient s.clients cid (fun d => { d with isAvailable := true }) } := by
  obtain ⟨hcm, hci⟩ := lookupClient_mem_id hc
  refine ⟨?_, ?_, ?_, ?_, h.queueNodup⟩
  · exact idsBound_updateClient (fun e => rfl) h.idsBound
  · show ((updateClient s.clients cid (fun d => { d with isAvailable := true })).map
      Conn.id).Nodup
    rw [updateClient_map_id s.clients cid
      (fun d => { d with isAvailable := true }) (fun e => rfl)]
    exact h.idsNodup
  · exact symmetricPairs_updateClient (fun e => rfl) (fun e => rfl) h.symm
  · exact availMutex_setAvail h.idsNodup hcm hcpn hci (fun e => rfl) h.mutex

theorem serverInv_handleAvailableL {s : ServerState} (h : ServerInv s) (cid : Nat) :
    ServerInv (handleAvailableL s cid) := by
  unfold handleAvailableL
  cases hc : lookupClient s.clients cid with
  | none => exact h
  | some c =>
    dsimp only
    by_cases hp : c.partnerId.isSome = true
    · rw [if_pos hp]
      exact serverInv_send h cid (OutMsg.errMsg ErrCode.alreadyPaired)
    · rw [if_neg hp]
      have hcpn : c.partnerId = none := Option.not_isSome_iff_eq_none.mp hp
      have h1 := serverInv_setAvail h hc hcpn
      cases hf : findAvailablePartner
          (updateClient s.clients cid (fun d => { d with isAvailable := true })) cid with
      | some partner =>
        have hpm : partner ∈ updateClient s.clients cid
            (fun d => { d with isAvailable := true }) := List.mem_of_find?_eq_some hf
        have hpred := List.find?_some hf
        simp only [Bool.and_eq_true, bne_iff_ne, beq_iff_eq, ne_eq] at hpred
        obtain ⟨⟨hpne, hpav⟩, hppn⟩ := hpred
        have hc1 : lookupClient (updateClient s.clients cid
            (fun d => { d with isAvailable := true })) cid =
            some { c with isAvailable := true } := by
          rw [lookupClient_updateClient_self s.clients cid
            (fun d => { d with isAvailable := true }) (fun e => rfl), hc]
          rfl
        have hlp : lookupClient (updateClient s.clients cid
            (fun d => { d with isAvailable := true })) partner.id = some partner :=
          lookupClient_of_mem h1.idsNodup hpm
        have hne2 : cid ≠ partner.id := fun hh => hpne hh.symm
        exact serverInv_createRoom h1 hc1 hcpn hlp hppn hne2
      | none =>
        by_cases hq : cid ∈ s.waitingQueue
        · rw [if_pos hq]
          exact h1
        · rw [if_neg hq]
          exact ⟨h1.idsBound, h1.idsNodup, h1.symm, h1.mutex,
            nodup_append_single h.queueNodup hq⟩

theorem teardownPaired_clients (req : Bool) (s : ServerState) (cid pid : Nat) :
    (teardownPaired req s cid pid).clients =
      updateClient
        (resetPartnerAndMaybeRequeue req (relayToPartnerL s pid OutMsg.partnerLeft) pid).clients
        cid (fun c => { c with partnerId := none, roomId := none, isAvailable := false }) :=
  rfl

theorem teardownPaired_queue (req : Bool) (s : ServerState) (cid pid : Nat) :
    (teardownPaired req s cid pid).waitingQueue =
      removeFromQueue
        (resetPartnerAndMaybeRequeue req
          (relayToPartnerL s pid OutMsg.partnerLeft) pid).waitingQueue cid :=
  rfl

theorem teardownPaired_nextId (req : Bool) (s : ServerState) (cid pid : Nat) :
    (teardownPaired req s cid pid).nextId =
      (resetPartnerAndMaybeRequeue req (relayToPartnerL s pid OutMsg.partnerLeft) pid).nextId :=
  rfl

theorem idsNodup_updateClient2 {cs : List Conn} {i1 i2 : Nat} {f1 f2 : Conn → Conn}
    (hf1 : ∀ c, (f1 c).id = c.id) (hf2 : ∀ c, (f2 c).id = c.id)
    (h : (cs.map Conn.id).Nodup) :
    ((updateClient (updateClient cs i1 f1) i2 f2).map Conn.id).Nodup := by
  rw [updateClient_map_id _ _ _ hf2, updateClient_map_id _ _ _ hf1]
  exact h

theorem serverInv_teardownPaired {req : Bool} {s : ServerState} {cid pid : Nat} {c : Conn}
    (h : ServerInv s) (hc : lookupClient s.clients cid = some c)
    (hcp : c.partnerId = some pid) : ServerInv (teardownPaired req s cid pid) := by
  obtain ⟨hcm, hci⟩ := lookupClient_mem_id hc
  obtain ⟨hpne, d, hdm, hdi, hdp⟩ := h.symm c hcm pid hcp
  have hd : lookupClient s.clients pid = some d := by
    rw [← hdi]
    exact lookupClient_of_mem h.idsNodup hdm
  have hs1lookup : lookupClient (relayToPartnerL s pid OutMsg.partnerLeft).clients pid
      = some d := by rw [relayToPartnerL_clients]; exact hd
  have h2c := @resetPartner_clients_some req (relayToPartnerL s pid OutMsg.partnerLeft)
    pid d hs1lookup
  have h2q := @resetPartner_queue_some req (relayToPartnerL s pid OutMsg.partnerLeft)
    pid d hs1lookup
  have h2n := @resetPartner_nextId req (relayToPartnerL s pid OutMsg.partnerLeft) pid
  rw [relayToPartnerL_clients] at h2c
  rw [relayToPartnerL_queue] at h2q
  rw [relayToPartnerL_nextId] at h2n
  have hcd : c.partnerId = some d.id := by rw [hdi]; exact hcp
  by_cases hr : req = true
  · rw [if_pos hr] at h2c h2q
    rw [updateClient_updateClient_same s.clients pid
      (fun c => { c with partnerId := none, roomId := none })
      (fun c => { c with isAvailable := true }) (fun e => rfl)] at h2c
    refine ⟨?_, ?_, ?_, ?_, ?_⟩
    · rw [teardownPaired_clients, teardownPaired_nextId, h2c, h2n]
      exact idsBound_updateClient (fun e => rfl)
        (idsBound_updateClient (fun e => rfl) h.idsBound)
    · rw [teardownPaired_clients, h2c]
      exact idsNodup_updateClient2 (fun e => rfl) (fun e => rfl) h.idsNodup
    · rw [teardownPaired_clients, h2c, ← hdi, ← hci]
      exact symmetricPairs_teardown h.idsNodup h.symm hcm hdm hcd hdp
        (fun e => rfl) (fun e => rfl) (fun e => rfl) (fun e => rfl)
    · rw [teardownPaired_clients, h2c]
      exact availMutex_clearPartner (fun e => rfl)
        (availMutex_clearPartner (fun e => rfl) h.mutex)
    · rw [teardownPaired_queue, h2q]
      by_cases hq : pid ∈ s.waitingQueue
      · rw [if_pos hq]
        exact removeFromQueue_nodup h.queueNodup _
      · rw [if_neg hq]
        exact removeFromQueue_nodup (nodup_append_single h.queueNodup hq) _
  · rw [if_neg hr] at h2c h2q
    refine ⟨?_, ?_, ?_, ?_, ?_⟩
    · rw [teardownPaired_clients, teardownPaired_nextId, h2c, h2n]
      exact idsBound_updateClient (fun e => rfl)
        (idsBound_updateClient (fun e => rfl) h.idsBound)
    · rw [teardownPaired_clients, h2c]
      exact idsNodup_updateClient2 (fun e => rfl) (fun e => rfl) h.idsNodup
    · rw [teardownPaired_clients, h2c, ← hdi, ← hci]
      exact symmetricPairs_teardown h.idsNodup h.symm hcm hdm hcd hdp
        (fun e => rfl) (fun e => rfl) (fun e => rfl) (fun e => rfl)
    · rw [teardownPaired_clients, h2c]
      exact availMutex_clearPartner (fun e => rfl)
        (availMutex_clearPartner (fun e => rfl) h.mutex)
    · rw [teardownPaired_queue, h2q]
      exact removeFromQueue_nodup h.queueNodup _

theorem idsNodup_updateClient {cs : List Conn} {i : Nat} {f : Conn → Conn}
    (hf : ∀ c, (f c).id = c.id) (h : (cs.map Conn.id).Nodup) :
    ((updateClient cs i f).map Conn.id).Nodup := by
  rw [updateClient_map_id _ _ _ hf]
  exact h

theorem serverInv_handleNextL {req : Bool} {s : ServerState} (h : ServerInv s) (cid : Nat) :
    ServerInv (handleNextL req s cid) := by
  unfold handleNextL
  cases hc : lookupClient s.clients cid with
  | none => exact h
  | some c =>
    dsimp only
    cases hcp : c.partnerId with
    | none => exact serverInv_send h cid (OutMsg.errMsg ErrCode.notPaired)
    | some pid => exact serverInv_teardownPaired h hc hcp

theorem serverInv_handleLeaveL {req : Bool} {s : ServerState} (h : ServerInv s) (cid : Nat) :
    ServerInv (handleLeaveL req s cid) := by
  unfold handleLeaveL
  cases hc : lookupClient s.clients cid with
  | none => exact h
  | some c =>
    dsimp only
    cases hcp : c.partnerId with
    | some pid => exact serverInv_teardownPaired h hc hcp
    | none =>
      obtain ⟨hcm, hci⟩ := lookupClient_mem_id hc
      have hnoref : ∀ e ∈ s.clients, e.partnerId ≠ some cid := by
        have hn := noref_of_unpaired h.idsNodup h.symm hcm hcp
        rw [hci] at hn
        exact hn
      refine ⟨?_, ?_, ?_, ?_, ?_⟩
      · exact idsBound_updateClient (fun e => rfl) h.idsBound
      · exact idsNodup_updateClient (fun e => rfl) h.idsNodup
      · exact symmetricPairs_clear_unreferenced h.symm (fun e => rfl) (fun e => rfl) hnoref
      · exact availMutex_clearPartner (fun e => rfl) h.mutex
      · exact removeFromQueue_nodup h.queueNodup _

theorem serverInv_handleClientDisconnectL {req : Bool} {s : ServerState}
    (h : ServerInv s) (cid : Nat) : ServerInv (handleClientDisconnectL req s cid) := by
  unfold handleClientDisconnectL
  cases hc : lookupClient s.clients cid with
  | none => exact h
  | some c =>
    dsimp only
    obtain ⟨hcm, hci⟩ := lookupClient_mem_id hc
    cases hcp : c.partnerId with
    | none =>
      have hnoref : ∀ e ∈ s.clients, e.partnerId ≠ some cid := by
        have hn := noref_of_unpaired h.idsNodup h.symm hcm hcp
        rw [hci] at hn
        exact hn
      refine ⟨?_, ?_, ?_, ?_, ?_⟩
      · exact fun x hx => h.idsBound x (List.mem_of_mem_filter hx)
      · exact idsNodup_filter h.idsNodup _
      · exact symmetricPairs_filter_unreferenced h.symm hnoref
      · exact availMutex_filter h.mutex
      · exact removeFromQueue_nodup h.queueNodup _
    | some pid =>
      dsimp only
      obtain ⟨hpne, d, hdm, hdi, hdp⟩ := h.symm c hcm pid hcp
      have hd : lookupClient s.clients pid = some d := by
        rw [← hdi]
        exact lookupClient_of_mem h.idsNodup hdm
      have hs1lookup : lookupClient (relayToPartnerL s pid OutMsg.partnerLeft).clients pid
          = some d := by rw [relayToPartnerL_clients]; exact hd
      have h2c := @resetPartner_clients_some req (relayToPartnerL s pid OutMsg.partnerLeft)
        pid d hs1lookup
      have h2q := @resetPartner_queue_some req (relayToPartnerL s pid OutMsg.partnerLeft)
        pid d hs1lookup
      have h2n := @resetPartner_nextId req (relayToPartnerL s pid OutMsg.partnerLeft) pid
      rw [relayToPartnerL_clients] at h2c
      rw [relayToPartnerL_queue] at h2q
      rw [relayToPartnerL_nextId] at h2n
      have hcd : c.partnerId = some d.id := by rw [hdi]; exact hcp
      by_cases hr : req = true
      · rw [if_pos hr] at h2c h2q
        rw [updateClient_updateClient_same s.clients pid
          (fun c => { c with partnerId := none, roomId := none })
          (fun c => { c with isAvailable := true }) (fun e => rfl)] at h2c
        refine ⟨?_, ?_, ?_, ?_, ?_⟩
        · show ∀ x ∈ (resetPartnerAndMaybeRequeue req
            (relayToPartnerL s pid OutMsg.partnerLeft) pid).clients.filter
              (fun d => d.id ≠ cid), x.id <
            (resetPartnerAndMaybeRequeue req
              (relayToPartnerL s pid OutMsg.partnerLeft) pid).nextId
          rw [h2c, h2n]
          exact fun x hx =>
            @idsBound_updateClient s.clients s.nextId pid
              (fun c => { c with partnerId := none, roomId := none, isAvailable := true })
              (fun e => rfl) h.idsBound x (List.mem_of_mem_filter hx)
        · show (((resetPartnerAndMaybeRequeue req
            (relayToPartnerL s pid OutMsg.partnerLeft) pid).clients.filter
              (fun d => d.id ≠ cid)).map Conn.id).Nodup
          rw [h2c]
          exact idsNodup_filter (@idsNodup_updateClient s.clients pid
            (fun c => { c with partnerId := none, roomId := none, isAvailable := true })
            (fun e => rfl) h.idsNodup) _
        · show SymmetricPairs ((resetPartnerAndMaybeRequeue req
            (relayToPartnerL s pid OutMsg.partnerLeft) pid).clients.filter
              (fun d => d.id ≠ cid))
          rw [h2c, ← hdi, ← hci]
          exact symmetricPairs_disconnect h.idsNodup h.symm hcm hdm hcd hdp
            (fun e => rfl) (fun e => rfl)
        · show AvailMutex ((resetPartnerAndMaybeRequeue req
            (relayToPartnerL s pid OutMsg.partnerLeft) pid).clients.filter
              (fun d => d.id ≠ cid))
          rw [h2c]
          exact availMutex_filter (availMutex_clearPartner (fun e => rfl) h.mutex)
        · show (removeFromQueue (resetPartnerAndMaybeRequeue req
            (relayToPartnerL s pid OutMsg.partnerLeft) pid).waitingQueue cid).Nodup
          rw [h2q]
          by_cases hq : pid ∈ s.waitingQueue
          · rw [if_pos hq]
            exact removeFromQueue_nodup h.queueNodup _
          · rw [if_neg hq]
            exact removeFromQueue_nodup (nodup_append_single h.queueNodup hq) _
      · rw [if_neg hr] at h2c h2q
        refine ⟨?_, ?_, ?_, ?_, ?_⟩
        · show ∀ x ∈ (resetPartnerAndMaybeRequeue req
            (relayToPartnerL s pid OutMsg.partnerLeft) pid).clients.filter
              (fun d => d.id ≠ cid), x.id <
            (resetPartnerAndMaybeRequeue req
              (relayToPartnerL s pid OutMsg.partnerLeft) pid).nextId
          rw [h2c, h2n]
          exact fun x hx =>
            @idsBound_updateClient s.clients s.nextId pid
              (fun c => { c with partnerId := none, roomId := none })
              (fun e => rfl) h.idsBound x (List.mem_of_mem_filter hx)
        · show (((resetPartnerAndMaybeRequeue req
            (relayToPartnerL s pid OutMsg.partnerLeft) pid).clients.filter
              (fun d => d.id ≠ cid)).map Conn.id).Nodup
          rw [h2c]
          exact idsNodup_filter (@idsNodup_updateClient s.clients pid
            (fun c => { c with partnerId := none, roomId := none })
            (fun e => rfl) h.idsNodup) _
        · show SymmetricPairs ((resetPartnerAndMaybeRequeue req
            (relayToPartnerL s pid OutMsg.partnerLeft) pid).clients.filter
              (fun d => d.id ≠ cid))
          rw [h2c, ← hdi, ← hci]
          exact symmetricPairs_disconnect h.idsNodup h.symm hcm hdm hcd hdp
            (fun e => rfl) (fun e => rfl)
        · show AvailMutex ((resetPartnerAndMaybeRequeue req
            (relayToPartnerL s pid OutMsg.partnerLeft) pid).clients.filter
              (fun d => d.id ≠ cid))
          rw [h2c]
          exact availMutex_filter (availMutex_clearPartner (fun e => rfl) h.mutex)
        · show (removeFromQueue (resetPartnerAndMaybeRequeue req
            (relayToPartnerL s pid OutMsg.partnerLeft) pid).waitingQueue cid).Nodup
          rw [h2q]
          exact removeFromQueue_nodup h.queueNodup _

theorem handleOfferL_core (s : ServerState) (cid sdp : Nat) :
    (handleOfferL s cid sdp).clients = s.clients ∧
    (handleOfferL s cid sdp).waitingQueue = s.waitingQueue ∧
    (handleOfferL s cid sdp).nextId = s.nextId := by
  unfold handleOfferL
  cases lookupClient s.clients cid with
  | none => exact ⟨rfl, rfl, rfl⟩
  | some c =>
    dsimp only
    cases c.partnerId with
    | none => exact ⟨rfl, rfl, rfl⟩
    | some pid =>
      exact ⟨relayToPartnerL_clients _ _ _, relayToPartnerL_queue _ _ _,
        relayToPartnerL_nextId _ _ _⟩

theorem handleAnswerL_core (s : ServerState) (cid sdp : Nat) :
    (handleAnswerL s cid sdp).clients = s.clients ∧
    (handleAnswerL s cid sdp).waitingQueue = s.waitingQueue ∧
    (handleAnswerL s cid sdp).nextId = s.nextId := by
  unfold handleAnswerL
  cases lookupClient s.clients cid with
  | none => exact ⟨rfl, rfl, rfl⟩
  | some c =>
    dsimp only
    cases c.partnerId with
    | none => exact ⟨rfl, rfl, rfl⟩
    | some pid =>
      exact ⟨relayToPartnerL_clients _ _ _, relayToPartnerL_queue _ _ _,
        relayToPartnerL_nextId _ _ _⟩

theorem handleIceL_core (s : ServerState) (cid cand : Nat) :
    (handleIceL s cid cand).clients = s.clients ∧
    (handleIceL s cid cand).waitingQueue = s.waitingQueue ∧
    (handleIceL s cid cand).nextId = s.nextId := by
  unfold handleIceL
  cases lookupClient s.clients cid with
  | none => exact ⟨rfl, rfl, rfl⟩
  | some c =>
    dsimp only
    cases c.partnerId with
    | none => exact ⟨rfl, rfl, rfl⟩
    | some pid =>
      exact ⟨relayToPartnerL_clients _ _ _, relayToPartnerL_queue _ _ _,
        relayToPartnerL_nextId _ _ _⟩

theorem serverInv_handleAuthL {s : ServerState} (h : ServerInv s)
    (cid : Nat) (uid : Option Nat) (now : Nat) : ServerInv (handleAuthL s cid uid now) :=
  serverInv_updateClient_compat (fun _ => rfl) (fun _ => rfl) (fun _ => rfl) h

theorem serverInv_handleMessage {req : Bool} {s : ServerState} (h : ServerInv s)
    (cid now : Nat) (m : ClientMsg) : ServerInv (handleMessage req s cid now m) := by
  cases m with
  | auth uid => exact serverInv_handleAuthL h cid uid now
  | available => exact serverInv_handleAvailableL h cid
  | offer sdp =>
    obtain ⟨h1, h2, h3⟩ := handleOfferL_core s cid sdp
    exact serverInv_of_eq h1 h2 h3 h
  | answer sdp =>
    obtain ⟨h1, h2, h3⟩ := handleAnswerL_core s cid sdp
    exact serverInv_of_eq h1 h2 h3 h
  | ice cand =>
    obtain ⟨h1, h2, h3⟩ := handleIceL_core s cid cand
    exact serverInv_of_eq h1 h2 h3 h
  | next => exact serverInv_handleNextL h cid
  | leave => exact serverInv_handleLeaveL h cid
  | ping => exact serverInv_send h cid OutMsg.pong
  | other => exact serverInv_send h cid (OutMsg.errMsg ErrCode.unknownType)

theorem serverInv_wsMessage {req : Bool} {maxPerSec : Nat} {s : ServerState}
    (h : ServerInv s) (cid now : Nat) (m : ClientMsg) :
    ServerInv (wsMessage req maxPerSec s cid now m) := by
  unfold wsMessage
  cases hc : lookupClient s.clients cid with
  | none => exact h
  | some c =>
    dsimp only
    have h1 : ServerInv { s with clients := updateClient s.clients cid (fun d => { d with rateTs := (rateLimitOK now c.rateTs c.rateCount maxPerSec).2.1, rateCount := (rateLimitOK now c.rateTs c.rateCount maxPerSec).2.2 }) } :=
      serverInv_updateClient_compat (fun e => rfl) (fun e => rfl) (fun e => rfl) h
    by_cases hr : (rateLimitOK now c.rateTs c.rateCount maxPerSec).1 = true
    · rw [if_pos hr]
      exact serverInv_handleMessage h1 cid now m
    · rw [if_neg hr]
      exact serverInv_send h1 cid (OutMsg.errMsg ErrCode.rateLimited)

theorem serverInv_step {req : Bool} {maxPerSec : Nat} {s t : ServerState}
    (h : ServerInv s) (hst : LStep req maxPerSec s t) : ServerInv t := by
  cases hst with
  | connect => exact serverInv_connect h
  | message cid now m => exact serverInv_wsMessage h cid now m
  | disconnect cid => exact serverInv_handleClientDisconnectL h cid

theorem serverInv_reachable {req : Bool} {maxPerSec : Nat} {s : ServerState}
    (h : ReachableL req maxPerSec s) : ServerInv s := by
  induction h with
  | init => exact serverInv_init
  | step hr hstep ih => exact serverInv_step ih hstep

/-! ### FIFO pairing on pure admission traces -/

theorem setAvail_eq_self {c : Conn} (h : c.isAvailable = true) :
    ({ c with isAvailable := true } : Conn) = c := by
  cases c with
  | mk i u pr rm av rt rc ls =>
    have h2 : av = true := h
    subst h2
    rfl

theorem updateClient_setAvail_self {s : ServerState} (hnd : (s.clients.map Conn.id).Nodup)
    {cid : Nat} {c : Conn} (hc : lookupClient s.clients cid = some c)
    (hca : c.isAvailable = true) :
    updateClient s.clients cid (fun d => { d with isAvailable := true }) = s.clients := by
  obtain ⟨hcm, hci⟩ := lookupClient_mem_id hc
  have hcong : ∀ e ∈ s.clients,
      (if e.id = cid then ({ e with isAvailable := true } : Conn) else e) = e := by
    intro e he
    by_cases h1 : e.id = cid
    · rw [if_pos h1]
      have hec : e = c := eq_of_id_eq hnd he hcm (h1.trans hci.symm)
      rw [hec]
      exact setAvail_eq_self hca
    · rw [if_neg h1]
  unfold updateClient
  rw [List.map_congr_left hcong]
  simp

theorem findPartner_empty {s : ServerState} (hA : AInv s) {cid : Nat}
    (hq : s.waitingQueue = []) :
    findAvailablePartner (updateClient s.clients cid
      (fun x => { x with isAvailable := true })) cid = none := by
  unfold findAvailablePartner
  rw [List.find?_eq_none]
  intro x hx hpred
  simp only [Bool.and_eq_true, bne_iff_ne, beq_iff_eq, ne_eq] at hpred
  obtain ⟨⟨hxne, hxav⟩, hxpn⟩ := hpred
  obtain ⟨e, he, hxe⟩ := mem_updateClient hx
  by_cases h1 : e.id = cid
  · rw [hxe, if_pos h1] at hxne
    exact hxne h1
  · rw [if_neg h1] at hxe
    subst hxe
    have hmem := (hA.queueChar x.id).mpr ⟨x, he, rfl, hxav, hxpn⟩
    rw [hq] at hmem
    cases hmem

theorem findPartner_singleton {s : ServerState} (hA : AInv s) {cid p : Nat}
    (hq : s.waitingQueue = [p]) (hpc : p ≠ cid) :
    ∃ d, findAvailablePartner (updateClient s.clients cid
      (fun x => { x with isAvailable := true })) cid = some d ∧ d.id = p ∧
      d.isAvailable = true ∧ d.partnerId = none := by
  have hp : p ∈ s.waitingQueue := by rw [hq]; exact List.mem_singleton_self p
  obtain ⟨cp, hcpm, hcpi, hcpav, hcppn⟩ := (hA.queueChar p).mp hp
  have himg := updateClient_mem_image hcpm cid (fun x => { x with isAvailable := true })
  rw [if_neg (by rw [hcpi]; exact hpc)] at himg
  cases hf : findAvailablePartner (updateClient s.clients cid
      (fun x => { x with isAvailable := true })) cid with
  | none =>
    exfalso
    unfold findAvailablePartner at hf
    rw [List.find?_eq_none] at hf
    refine hf cp himg ?_
    simp [hcpi, hpc, hcpav, hcppn]
  | some d =>
    have hdm := List.mem_of_find?_eq_some hf
    have hdpred := List.find?_some hf
    simp only [Bool.and_eq_true, bne_iff_ne, beq_iff_eq, ne_eq] at hdpred
    obtain ⟨⟨hdne, hdav⟩, hdpn⟩ := hdpred
    obtain ⟨e, he, hde⟩ := mem_updateClient hdm
    by_cases h1 : e.id = cid
    · exfalso
      rw [hde, if_pos h1] at hdne
      exact hdne h1
    · rw [if_neg h1] at hde
      subst hde
      have hmem := (hA.queueChar d.id).mpr ⟨d, he, rfl, hdav, hdpn⟩
      rw [hq] at hmem
      exact ⟨d, rfl, List.mem_singleton.mp hmem, hdav, hdpn⟩

theorem createRoom_lookup_first {s : ServerState} {id1 id2 : Nat} (hne : id2 ≠ id1) :
    lookupClient (createRoom s id1 id2).clients id1 =
      (lookupClient s.clients id1).map
        (fun c => { c with partnerId := some id2, roomId := some s.nextId, isAvailable := false }) := by
  rw [createRoom_clients]
  rw [lookupClient_updateClient_ne _ id2 id1
    (fun c => { c with partnerId := some id1, roomId := some s.nextId, isAvailable := false })
    (fun e => rfl) hne]
  rw [lookupClient_updateClient_self _ id1
    (fun c => { c with partnerId := some id2, roomId := some s.nextId, isAvailable := false })
    (fun e => rfl)]

theorem createRoom_lookup_second {s : ServerState} {id1 id2 : Nat} (hne : id1 ≠ id2) :
    lookupClient (createRoom s id1 id2).clients id2 =
      (lookupClient s.clients id2).map
        (fun c => { c with partnerId := some id1, roomId := some s.nextId, isAvailable := false }) := by
  rw [createRoom_clients]
  rw [lookupClient_updateClient_self _ id2
    (fun c => { c with partnerId := some id1, roomId := some s.nextId, isAvailable := false })
    (fun e => rfl)]
  rw [lookupClient_updateClient_ne _ id1 id2
    (fun c => { c with partnerId := some id2, roomId := some s.nextId, isAvailable := false })
    (fun e => rfl) hne]

theorem createRoom_lookup_other {s : ServerState} {id1 id2 x : Nat}
    (h1 : id1 ≠ x) (h2 : id2 ≠ x) :
    lookupClient (createRoom s id1 id2).clients x = lookupClient s.clients x := by
  rw [createRoom_clients]
  rw [lookupClient_updateClient_ne _ id2 x
    (fun c => { c with partnerId := some id1, roomId := some s.nextId, isAvailable := false })
    (fun e => rfl) h2]
  rw [lookupClient_updateClient_ne _ id1 x
    (fun c => { c with partnerId := some id2, roomId := some s.nextId, isAvailable := false })
    (fun e => rfl) h1]

theorem no_avail_unpaired_createRoom {s1 : ServerState} {cid pid : Nat}
    (hall : ∀ x ∈ s1.clients, x.isAvailable = true → x.partnerId = none →
      x.id = cid ∨ x.id = pid) :
    ∀ x ∈ (createRoom s1 cid pid).clients,
      x.isAvailable = true → x.partnerId = none → False := by
  intro x hx hav hpn
  rw [createRoom_clients] at hx
  obtain ⟨e, he, hxe⟩ := @mem_updateClient2 s1.clients cid pid
    (fun c => { c with partnerId := some pid, roomId := some s1.nextId, isAvailable := false })
    (fun c => { c with partnerId := some cid, roomId := some s1.nextId, isAvailable := false })
    (fun e => rfl) x hx
  by_cases h2 : e.id = pid
  · rw [hxe, if_pos h2] at hav
    by_cases h1 : e.id = cid <;> simp only [h1, if_pos, if_neg, if_true, if_false] at hav <;>
      cases hav
  · by_cases h1 : e.id = cid
    · rw [hxe, if_neg h2, if_pos h1] at hav
      cases hav
    · rw [hxe, if_neg h2, if_neg h1] at hav hpn
      rcases hall e he hav hpn with hh | hh
      · exact h1 hh
      · exact h2 hh

theorem aInv_init : AInv initState := by
  refine ⟨serverInv_init, ?_, ?_⟩
  · intro x
    simp [initState]
  · simp [initState]

theorem aInv_connect {s : ServerState} (h : AInv s) : AInv (connectClient s) := by
  refine ⟨serverInv_connect h.base, ?_, h.queueLen⟩
  intro x
  constructor
  · intro hx
    obtain ⟨c, hc, hci, hcav, hcpn⟩ := (h.queueChar x).mp hx
    exact ⟨c, List.mem_append_left _ hc, hci, hcav, hcpn⟩
  · rintro ⟨c, hc, hci, hcav, hcpn⟩
    rcases List.mem_append.mp hc with hc1 | hc2
    · exact (h.queueChar x).mpr ⟨c, hc1, hci, hcav, hcpn⟩
    · rw [List.mem_singleton.mp hc2] at hcav
      simp [freshConn] at hcav

theorem aInv_avail {s : ServerState} (h : AInv s) (cid : Nat) :
    AInv (handleAvailableL s cid) := by
  unfold handleAvailableL
  cases hc : lookupClient s.clients cid with
  | none => exact h
  | some c =>
    dsimp only
    obtain ⟨hcm, hci⟩ := lookupClient_mem_id hc
    by_cases hp : c.partnerId.isSome = true
    · rw [if_pos hp]
      exact ⟨serverInv_send h.base cid (OutMsg.errMsg ErrCode.alreadyPaired),
        h.queueChar, h.queueLen⟩
    · rw [if_neg hp]
      have hcpn : c.partnerId = none := Option.not_isSome_iff_eq_none.mp hp
      have h1 := serverInv_setAvail h.base hc hcpn
      rcases hqe : s.waitingQueue with _ | ⟨p, rest⟩
      · rw [findPartner_empty h hqe]
        dsimp only
        have hnq : ¬ cid ∈ ([] : List Nat) := by simp
        rw [if_neg hnq]
        refine ⟨⟨h1.idsBound, h1.idsNodup, h1.symm, h1.mutex, by simp⟩, ?_, ?_⟩
        · intro x
          constructor
          · intro hx
            simp only [List.nil_append, List.mem_singleton] at hx
            have himg := updateClient_mem_image hcm cid
              (fun d => { d with isAvailable := true })
            rw [if_pos hci] at himg
            exact ⟨{ c with isAvailable := true }, himg, hci.trans hx.symm, rfl, hcpn⟩
          · rintro ⟨c2, hc2m, hc2i, hc2av, hc2pn⟩
            obtain ⟨e, he, hc2e⟩ := mem_updateClient hc2m
            by_cases h1e : e.id = cid
            · simp only [List.nil_append, List.mem_singleton]
              rw [← hc2i, hc2e, if_pos h1e]
              exact h1e
            · rw [if_neg h1e] at hc2e
              subst hc2e
              have hmem := (h.queueChar c2.id).mpr ⟨c2, he, rfl, hc2av, hc2pn⟩
              rw [hqe] at hmem
              cases hmem
        · simp
      · have hlen := h.queueLen
        rw [hqe] at hlen
        simp only [List.length_cons] at hlen
        have hrest : rest = [] := List.length_eq_zero.mp (by omega)
        subst hrest
        by_cases hpcid : p = cid
        · subst hpcid
          have hca : c.isAvailable = true := by
            obtain ⟨c2, hc2m, hc2i, hc2av, hc2pn⟩ :=
              (h.queueChar p).mp (by rw [hqe]; exact List.mem_singleton_self p)
            have hcc : c2 = c := eq_of_id_eq h.base.idsNodup hc2m hcm (hc2i.trans hci.symm)
            rw [← hcc]
            exact hc2av
          have hclients := updateClient_setAvail_self h.base.idsNodup hc hca
          rw [hclients]
          have hfind : findAvailablePartner s.clients p = none := by
            unfold findAvailablePartner
            rw [List.find?_eq_none]
            intro x hx hpred
            simp only [Bool.and_eq_true, bne_iff_ne, beq_iff_eq, ne_eq] at hpred
            obtain ⟨⟨hxne, hxav⟩, hxpn⟩ := hpred
            have hmem := (h.queueChar x.id).mpr ⟨x, hx, rfl, hxav, hxpn⟩
            rw [hqe] at hmem
            exact hxne (List.mem_singleton.mp hmem)
          rw [hfind]
          dsimp only
          have hq2 : p ∈ [p] := List.mem_singleton_self p
          rw [if_pos hq2]
          refine ⟨⟨h.base.idsBound, h.base.idsNodup, h.base.symm, h.base.mutex,
            by simp⟩, ?_, by simp⟩
          intro x
          have hqc := h.queueChar x
          rw [hqe] at hqc
          exact hqc
        · have hpc : p ≠ cid := hpcid
          obtain ⟨d, hfd, hdi, hdav, hdpn⟩ := findPartner_singleton h hqe hpc
          rw [hfd]
          dsimp only
          have hall : ∀ x ∈ (updateClient s.clients cid
              (fun d => { d with isAvailable := true })),
              x.isAvailable = true → x.partnerId = none → x.id = cid ∨ x.id = d.id := by
            intro x hx hxav hxpn
            obtain ⟨e, he, hxe⟩ := mem_updateClient hx
            by_cases h1e : e.id = cid
            · left
              rw [hxe, if_pos h1e]
              exact h1e
            · rw [if_neg h1e] at hxe
              subst hxe
              right
              have hmem := (h.queueChar x.id).mpr ⟨x, he, rfl, hxav, hxpn⟩
              rw [hqe] at hmem
              rw [hdi]
              exact List.mem_singleton.mp hmem
          have hnoavail := @no_avail_unpaired_createRoom { clients := updateClient s.clients cid (fun d => { d with isAvailable := true }), waitingQueue := [p], outbox := s.outbox, nextId := s.nextId } cid d.id hall
          have hc1 : lookupClient (updateClient s.clients cid
              (fun d => { d with isAvailable := true })) cid =
              some { c with isAvailable := true } := by
            rw [lookupClient_updateClient_self s.clients cid
              (fun d => { d with isAvailable := true }) (fun e => rfl), hc]
            rfl
          have hdm : d ∈ updateClient s.clients cid
              (fun d => { d with isAvailable := true }) := by
            unfold findAvailablePartner at hfd
            exact List.mem_of_find?_eq_some hfd
          have hlp : lookupClient (updateClient s.clients cid
              (fun d => { d with isAvailable := true })) d.id = some d :=
            lookupClient_of_mem h1.idsNodup hdm
          have hqfinal : ∀ t : ServerState, t.waitingQueue = [p] →
              (createRoom t cid d.id).waitingQueue = [] := by
            intro t ht
            rw [createRoom_queue, ht]
            have hrm1 : removeFromQueue [p] cid = [p] := by
              simp only [removeFromQueue, if_neg hpc]
            rw [hrm1]
            simp only [removeFromQueue, hdi, if_pos]
          refine ⟨?_, ?_, ?_⟩
          · refine serverInv_createRoom ?_ hc1 hcpn hlp hdpn
              (fun hh => hpc (by rw [← hdi, ← hh]))
            exact ⟨h1.idsBound, h1.idsNodup, h1.symm, h1.mutex, by simp⟩
          · intro x
            constructor
            · intro hx
              exfalso
              rw [hqfinal _ rfl] at hx
              cases hx
            · rintro ⟨c2, hc2m, hc2i, hc2av, hc2pn⟩
              exact (hnoavail c2 hc2m hc2av hc2pn).elim
          · rw [hqfinal _ rfl]
            simp

theorem aInv_reachableA {s : ServerState} (h : ReachableA s) : AInv s := by
  induction h with
  | init => exact aInv_init
  | step hr hstep ih =>
    cases hstep with
    | connect => exact aInv_connect ih
    | avail cid => exact aInv_avail ih cid

theorem handleAvailableL_fifo {s : ServerState} (hA : AInv s) {cid p : Nat} {c : Conn}
    (hc : lookupClient s.clients cid = some c) (hcp : c.partnerId = none)
    (hq : s.waitingQueue = [p]) (hpc : p ≠ cid) :
    ∃ c2, lookupClient (handleAvailableL s cid).clients cid = some c2 ∧
      c2.partnerId = some p := by
  obtain ⟨d, hfd, hdi, hdav, hdpn⟩ := findPartner_singleton hA hq hpc
  unfold handleAvailableL
  rw [hc]
  dsimp only
  rw [if_neg (by simp [hcp])]
  rw [hfd]
  dsimp only
  have hne : d.id ≠ cid := fun hh => hpc (hdi.symm.trans hh)
  rw [createRoom_lookup_first hne]
  dsimp only
  rw [lookupClient_updateClient_self s.clients cid
    (fun d => { d with isAvailable := true }) (fun e => rfl), hc]
  exact ⟨_, rfl, show some d.id = some p by rw [hdi]⟩

/-! ### The claims -/

/-- C1, amended to local-only mode: at every quiescent point of the
local-mode server (every state reachable through completed connect, message
and disconnect handlers, for every requeue policy and rate limit), every
registered connection with `partnerId = p` has a registered partner `p`
whose `partnerId` points back, and no registered connection is both
available and paired.  As stated the claim also covers distributed mode,
where it fails: see the counterexample. -/
theorem claimC1_theorem {req : Bool} {maxPerSec : Nat} {s : ServerState}
    (h : ReachableL req maxPerSec s) : ClaimC1Inv s.clients := by
  have hi := serverInv_reachable h
  refine ⟨?_, hi.mutex⟩
  intro c hc p hp
  obtain ⟨hq, d, hd, hdi, hdp⟩ := hi.symm c hc p hp
  exact ⟨d, hd, hdi, hdp⟩

/-- Witness for C1: the invariant at the quiescent point after two connects
and one admitted availability declaration. -/
theorem claimC1_witness :
    ClaimC1Inv ((wsMessage true 40 (connectClient (connectClient initState))
      0 2000 ClientMsg.available).clients) :=
  claimC1_theorem (ReachableL.step (ReachableL.step (ReachableL.step ReachableL.init
    (LStep.connect _)) (LStep.connect _)) (LStep.message _ 0 2000 ClientMsg.available))

/-- Counterexample for C1 as stated: in distributed mode a cross-instance
match (client 1 on instance A pops client 0, which queued from instance B)
sets only the popping side's partner field; the pub/sub delivery sends the
`matched` payload but never mutates the remote record, which stays
available and unpaired, so the claimed invariant fails at a quiescent
point. -/
theorem claimC1_counterexample :
    ¬ ClaimC1Inv (dTraceC1.instA ++ dTraceC1.instB) := by decide

/-- C2, confirmed for the authoritative local queue: on any state reachable
by connects and availability declarations alone, an availability
declaration from a registered unpaired client made while the waiting queue
has head `p` (with `p` not the caller) pairs the caller with `p` — the
earliest remaining declarer, since `handleAvailable` appends to the queue
tail. -/
theorem claimC2_theorem {s : ServerState} (h : ReachableA s) {cid p : Nat}
    {rest : List Nat} {c : Conn}
    (hq : s.waitingQueue = p :: rest) (hc : lookupClient s.clients cid = some c)
    (hcp : c.partnerId = none) (hpc : p ≠ cid) :
    ∃ c2, lookupClient (handleAvailableL s cid).clients cid = some c2 ∧
      c2.partnerId = some p := by
  have hA := aInv_reachableA h
  have hlen := hA.queueLen
  rw [hq] at hlen
  simp only [List.length_cons] at hlen
  have hrest : rest = [] := List.length_eq_zero.mp (by omega)
  subst hrest
  exact handleAvailableL_fifo hA hc hcp hq hpc

/-- Witness for C2: clients 0 and 1 connect, 0 declares available and
waits; client 1's declaration pairs it with 0, the queue head. -/
theorem claimC2_witness :
    ∃ c2, lookupClient (handleAvailableL (handleAvailableL
      (connectClient (connectClient initState)) 0) 1).clients 1 = some c2 ∧
      c2.partnerId = some 0 :=
  claimC2_theorem
    (ReachableA.step (ReachableA.step (ReachableA.step ReachableA.init
      (AStep.connect _)) (AStep.connect _)) (AStep.avail _ 0))
    (show (handleAvailableL (connectClient (connectClient initState)) 0).waitingQueue
      = 0 :: [] by decide)
    (show lookupClient (handleAvailableL
      (connectClient (connectClient initState)) 0).clients 1 = some (freshConn 1)
      by decide)
    (by decide) (by decide)

/-- C3, amended: `next` while unpaired fails with `NOT_PAIRED` and is a
pure send (no state mutation), exactly as claimed; `leave` while unpaired
however sends no error and does mutate state — it resets the caller's
record (clearing its available flag) and removes the caller from the
waiting queue, leaving every other record unchanged. -/
theorem claimC3_theorem {req : Bool} {s : ServerState} {cid : Nat} {c : Conn}
    (hc : lookupClient s.clients cid = some c) (hcp : c.partnerId = none) :
    handleNextL req s cid = sendToClient s cid (OutMsg.errMsg ErrCode.notPaired) ∧
    handleLeaveL req s cid = { s with clients := updateClient s.clients cid (fun d => { d with partnerId := none, roomId := none, isAvailable := false }), waitingQueue := removeFromQueue s.waitingQueue cid } := by
  constructor
  · unfold handleNextL
    rw [hc]
    dsimp only
    rw [hcp]
  · unfold handleLeaveL
    rw [hc]
    dsimp only
    rw [hcp]

/-- Witness for C3 at a freshly connected client. -/
theorem claimC3_witness :
    handleNextL true (connectClient initState) 0 =
      sendToClient (connectClient initState) 0 (OutMsg.errMsg ErrCode.notPaired) ∧
    handleLeaveL true (connectClient initState) 0 = { connectClient initState with clients := updateClient (connectClient initState).clients 0 (fun d => { d with partnerId := none, roomId := none, isAvailable := false }), waitingQueue := removeFromQueue (connectClient initState).waitingQueue 0 } :=
  claimC3_theorem
    (show lookupClient (connectClient initState).clients 0 = some (freshConn 0) by decide)
    (by decide)

/-- Counterexample for C3 as stated: an available, queued, unpaired client
that sends `leave` gets no error (the outbox is unchanged, in particular no
`NOT_PAIRED`), yet its state is mutated: it disappears from the waiting
queue and its available flag is cleared. -/
theorem claimC3_counterexample :
    (handleLeaveL true (handleAvailableL (connectClient initState) 0) 0).outbox =
      (handleAvailableL (connectClient initState) 0).outbox ∧
    (handleAvailableL (connectClient initState) 0).waitingQueue = [0] ∧
    (handleLeaveL true (handleAvailableL (connectClient initState) 0) 0).waitingQueue = [] ∧
    lookupClient (handleLeaveL true (handleAvailableL
      (connectClient initState) 0) 0).clients 0 ≠
      lookupClient (handleAvailableL (connectClient initState) 0).clients 0 := by
  decide

/-- C4, amended to the local queue: in local mode every reachable state has
each id at most once in the waiting queue (in particular repeated
`available` declarations never duplicate an entry).  The distributed queue
violates the claim as stated: see the counterexample. -/
theorem claimC4_theorem {req : Bool} {maxPerSec : Nat} {s : ServerState}
    (h : ReachableL req maxPerSec s) (x : Nat) : s.waitingQueue.count x ≤ 1 :=
  List.nodup_iff_count_le_one.mp (serverInv_reachable h).queueNodup x

/-- Witness for C4 after a connect and an admitted availability declaration. -/
theorem claimC4_witness :
    (wsMessage true 40 (connectClient initState) 0 2000
      ClientMsg.available).waitingQueue.count 0 ≤ 1 :=
  claimC4_theorem (ReachableL.step (ReachableL.step ReachableL.init
    (LStep.connect _)) (LStep.message _ 0 2000 ClientMsg.available)) 0

/-- Counterexample for C4 as stated: with Redis configured, a second
`available` from the same unpaired client self-pops five times, pushes
itself back each time, and then `lpush`es itself again with no membership
check — the shared waiting list then holds the id twice. -/
theorem claimC4_counterexample : ¬ dTraceC4.redisList.count 0 ≤ 1 := by decide

/-- C5, confirmed: for two distinct registered clients, `createRoom`
produces the full claimed postcondition (`CreateRoomSpec`): symmetric
partner fields and a shared fresh room id, cleared availability, both ids
removed from the waiting queue, `matched` notifications naming each other,
all other records untouched — so pairing is all-or-nothing; and the
matchmaking scan never proposes the caller itself as partner. -/
theorem claimC5_theorem {s : ServerState} {a b : Nat} {ca cb : Conn}
    (hqnd : s.waitingQueue.Nodup)
    (ha : lookupClient s.clients a = some ca) (hb : lookupClient s.clients b = some cb)
    (hab : a ≠ b)
    (hrooms : ∀ c ∈ s.clients, ∀ r : Nat, c.roomId = some r → r < s.nextId) :
    CreateRoomSpec s a b ca cb ∧
    (∀ (cs0 : List Conn) (ex : Nat) (d : Conn),
      findAvailablePartner cs0 ex = some d → d.id ≠ ex) := by
  constructor
  · refine ⟨?_, ?_, ?_, ?_, ?_, ?_, ?_, ?_⟩
    · rw [createRoom_lookup_first (fun hh => hab hh.symm), ha]
      rfl
    · rw [createRoom_lookup_second hab, hb]
      rfl
    · intro x hax hbx
      exact createRoom_lookup_other hax hbx
    · exact createRoom_queue s a b
    · rw [createRoom_queue]
      intro hmem
      have hsub := (removeFromQueue_sublist (removeFromQueue s.waitingQueue a) b).subset hmem
      exact not_mem_removeFromQueue hqnd a hsub
    · rw [createRoom_queue]
      exact not_mem_removeFromQueue (removeFromQueue_nodup hqnd a) b
    · exact createRoom_outbox s a b
    · intro c hc r hr
      exact Nat.ne_of_lt (hrooms c hc r hr)
  · intro cs0 ex d hfind
    have hpred := List.find?_some hfind
    simp only [Bool.and_eq_true, bne_iff_ne, beq_iff_eq, ne_eq] at hpred
    exact hpred.1.1

/-- Witness for C5 on two freshly connected clients. -/
theorem claimC5_witness :
    CreateRoomSpec (connectClient (connectClient initState)) 0 1
      (freshConn 0) (freshConn 1) ∧
    (∀ (cs0 : List Conn) (ex : Nat) (d : Conn),
      findAvailablePartner cs0 ex = some d → d.id ≠ ex) :=
  claimC5_theorem (by decide)
    (show lookupClient (connectClient (connectClient initState)).clients 0
      = some (freshConn 0) by decide)
    (show lookupClient (connectClient (connectClient initState)).clients 1
      = some (freshConn 1) by decide)
    (by decide)
    (by
      intro c hc r hr
      simp [connectClient, initState, freshConn] at hc
      rcases hc with rfl | rfl <;> simp at hr)

/-- C6, confirmed: per-connection fixed-window rate limiting.  When the
1000-unit window has elapsed since the recorded start, the counter resets
to 1 and the message is admitted; otherwise the counter increments and the
message is admitted exactly when the new count is at most the maximum.  A
rejected message is answered with `RATE_LIMIT` and never reaches
`handleMessage` (the handler state change is exactly the rate-field update
plus that one error send, whatever the message was).  Concretely, with the
default maximum 40, a fresh connection sending 41 messages inside one
window sees the first 40 admitted (ping answered by pong) and the 41st
rejected and not forwarded. -/
theorem claimC6_theorem (now ts cnt maxPerSec : Nat) :
    (ts + 1000 < now → rateLimitOK now ts cnt maxPerSec = (true, now, 1)) ∧
    (¬ ts + 1000 < now →
      rateLimitOK now ts cnt maxPerSec = (decide (cnt + 1 ≤ maxPerSec), ts, cnt + 1)) ∧
    (∀ (req : Bool) (s : ServerState) (cid : Nat) (m : ClientMsg) (c : Conn),
      lookupClient s.clients cid = some c →
      (rateLimitOK now c.rateTs c.rateCount maxPerSec).1 = false →
      wsMessage req maxPerSec s cid now m =
        sendToClient { s with clients := updateClient s.clients cid (fun d => { d with rateTs := (rateLimitOK now c.rateTs c.rateCount maxPerSec).2.1, rateCount := (rateLimitOK now c.rateTs c.rateCount maxPerSec).2.2 }) } cid (OutMsg.errMsg ErrCode.rateLimited)) ∧
    (iterateMsg true 40 0 2000 ClientMsg.ping 40 (connectClient initState)).outbox =
      (0, OutMsg.ready 0) :: List.replicate 40 (0, OutMsg.pong) ∧
    (iterateMsg true 40 0 2000 ClientMsg.ping 41 (connectClient initState)).outbox =
      (iterateMsg true 40 0 2000 ClientMsg.ping 40 (connectClient initState)).outbox
        ++ [(0, OutMsg.errMsg ErrCode.rateLimited)] := by
  refine ⟨?_, ?_, ?_, by decide, by decide⟩
  · intro h
    unfold rateLimitOK
    rw [if_pos h]
  · intro h
    unfold rateLimitOK
    rw [if_neg h]
  · intro req s cid m c hc hr
    unfold wsMessage
    rw [hc]
    dsimp only
    rw [if_neg (by simp [hr])]

/-- Witness for C6: both window branches of the limiter at concrete
arguments. -/
theorem claimC6_witness :
    rateLimitOK 2000 0 0 40 = (true, 2000, 1) ∧
    rateLimitOK 2000 2000 5 40 = (decide (5 + 1 ≤ 40), 2000, 5 + 1) :=
  ⟨(claimC6_theorem 2000 0 0 40).1 (by decide),
    (claimC6_theorem 2000 2000 5 40).2.1 (by decide)⟩

/-- C7, confirmed: `offer`, `answer` and `ice` from an unpaired connection
each produce exactly a `NOT_PAIRED` error to the sender — the resulting
state is the input state plus that one outbox entry, so nothing is relayed
and no record or queue changes. -/
theorem claimC7_theorem {s : ServerState} {cid : Nat} {c : Conn} (sdp cand : Nat)
    (hc : lookupClient s.clients cid = some c) (hcp : c.partnerId = none) :
    handleOfferL s cid sdp = sendToClient s cid (OutMsg.errMsg ErrCode.notPaired) ∧
    handleAnswerL s cid sdp = sendToClient s cid (OutMsg.errMsg ErrCode.notPaired) ∧
    handleIceL s cid cand = sendToClient s cid (OutMsg.errMsg ErrCode.notPaired) := by
  refine ⟨?_, ?_, ?_⟩
  · unfold handleOfferL
    rw [hc]
    dsimp only
    rw [hcp]
  · unfold handleAnswerL
    rw [hc]
    dsimp only
    rw [hcp]
  · unfold handleIceL
    rw [hc]
    dsimp only
    rw [hcp]

/-- Witness for C7 at a freshly connected client. -/
theorem claimC7_witness :
    handleOfferL (connectClient initState) 0 7 =
      sendToClient (connectClient initState) 0 (OutMsg.errMsg ErrCode.notPaired) ∧
    handleAnswerL (connectClient initState) 0 7 =
      sendToClient (connectClient initState) 0 (OutMsg.errMsg ErrCode.notPaired) ∧
    handleIceL (connectClient initState) 0 9 =
      sendToClient (connectClient initState) 0 (OutMsg.errMsg ErrCode.notPaired) :=
  claimC7_theorem 7 9
    (show lookupClient (connectClient initState).clients 0 = some (freshConn 0) by decide)
    (by decide)

/-- C8, confirmed: declaring `available` while paired produces exactly an
`ALREADY_PAIRED` error to the sender and no other change, in local mode and
in distributed mode alike. -/
theorem claimC8_theorem {s : ServerState} {cid pid : Nat} {c : Conn}
    (hc : lookupClient s.clients cid = some c) (hcp : c.partnerId = some pid) :
    handleAvailableL s cid = sendToClient s cid (OutMsg.errMsg ErrCode.alreadyPaired) ∧
    (∀ (w : DWorld) (inst : Bool) (c2 : Conn) (pid2 : Nat),
      lookupClient (w.reg inst) cid = some c2 → c2.partnerId = some pid2 →
      handleAvailableD w inst cid = sendD w cid (OutMsg.errMsg ErrCode.alreadyPaired)) := by
  constructor
  · unfold handleAvailableL
    rw [hc]
    dsimp only
    rw [if_pos (show c.partnerId.isSome = true by rw [hcp]; rfl)]
  · intro w inst c2 pid2 hc2 hcp2
    unfold handleAvailableD
    rw [hc2]
    dsimp only
    rw [if_pos (show c2.partnerId.isSome = true by rw [hcp2]; rfl)]

/-- Witness for C8 on the state where clients 0 and 1 have been matched. -/
theorem claimC8_witness :
    handleAvailableL (handleAvailableL (handleAvailableL
        (connectClient (connectClient initState)) 0) 1) 0 =
      sendToClient (handleAvailableL (handleAvailableL
        (connectClient (connectClient initState)) 0) 1) 0
        (OutMsg.errMsg ErrCode.alreadyPaired) ∧
    (∀ (w : DWorld) (inst : Bool) (c2 : Conn) (pid2 : Nat),
      lookupClient (w.reg inst) 0 = some c2 → c2.partnerId = some pid2 →
      handleAvailableD w inst 0 = sendD w 0 (OutMsg.errMsg ErrCode.alreadyPaired)) :=
  claimC8_theorem
    (show lookupClient (handleAvailableL (handleAvailableL
      (connectClient (connectClient initState)) 0) 1).clients 0
      = some { freshConn 0 with partnerId := some 1, roomId := some 2 } by decide)
    (show ({ freshConn 0 with partnerId := some 1, roomId := some 2 } : Conn).partnerId
      = some 1 by decide)

/-- C9, confirmed: waiting-queue removal is total and idempotent — removing
an absent id is a no-op, a removal (and hence a double removal) yields a
sublist, so the relative order of all remaining entries is unchanged, and
under the queue invariant (no duplicates) removing twice equals removing
once. -/
theorem claimC9_theorem (q : List Nat) (i : Nat) :
    (i ∉ q → removeFromQueue q i = q) ∧
    (removeFromQueue q i).Sublist q ∧
    (removeFromQueue (removeFromQueue q i) i).Sublist q ∧
    (q.Nodup → removeFromQueue (removeFromQueue q i) i = removeFromQueue q i) :=
  ⟨fun h => removeFromQueue_of_not_mem h,
    removeFromQueue_sublist q i,
    (removeFromQueue_sublist _ _).trans (removeFromQueue_sublist q i),
    fun hnd => removeFromQueue_of_not_mem (not_mem_removeFromQueue hnd i)⟩

/-- Witness for C9 at concrete queues. -/
theorem claimC9_witness :
    removeFromQueue [1, 3] 2 = [1, 3] ∧
    removeFromQueue (removeFromQueue [1, 2, 3] 2) 2 = removeFromQueue [1, 2, 3] 2 :=
  ⟨(claimC9_theorem [1, 3] 2).1 (by decide),
    (claimC9_theorem [1, 2, 3] 2).2.2.2 (by decide)⟩

/-- C10, confirmed: in local mode, a duplicate `available` from an
unpaired, already-available, already-queued client for which no partner
exists is an observable no-op — the state is returned unchanged, so no
error is sent and no second queue entry appears. -/
theorem claimC10_theorem {s : ServerState} {cid : Nat} {c : Conn}
    (hnd : (s.clients.map Conn.id).Nodup)
    (hc : lookupClient s.clients cid = some c) (hcp : c.partnerId = none)
    (hca : c.isAvailable = true)
    (hfind : findAvailablePartner s.clients cid = none)
    (hq : cid ∈ s.waitingQueue) :
    handleAvailableL s cid = s := by
  unfold handleAvailableL
  rw [hc]
  dsimp only
  rw [if_neg (by simp [hcp])]
  have hclients := updateClient_setAvail_self hnd hc hca
  rw [hclients]
  rw [hfind]
  dsimp only
  rw [if_pos hq]

/-- Witness for C10: a second `available` from the sole waiting client
leaves the state untouched. -/
theorem claimC10_witness :
    handleAvailableL (handleAvailableL (connectClient initState) 0) 0 =
      handleAvailableL (connectClient initState) 0 :=
  claimC10_theorem (by decide)
    (show lookupClient (handleAvailableL (connectClient initState) 0).clients 0
      = some { freshConn 0 with isAvailable := true } by decide)
    (by decide) (by decide) (by decide) (by decide)
